import Mathlib

/-!
# onsonr/crypto, package `mpc`

A shallow embedding of `mpc/codec.go`, of the accessors of `mpc/share.go`, of
the driver and flows of `mpc/mpc.go` and of `mpc/base.go`, followed by
theorems about the share codec, the signature codec, public-key extraction,
signature verification and the two-party protocol driver.

Conventions of the embedding:

* a Go `string` is a `List Char` (the only separator is the ASCII colon, so
  splitting by character and by byte agree), a Go `[]byte` is a `List Byte`;
* a Go `error` value is an `Option Error` (`none` is `nil`);
* a function returning `(T, error)` that returns exactly one of a value and a
  non-nil error is an `Except Error T`; where the code can return both as nil
  the pair is kept as a pair;
* a run-time panic (slice bounds, index out of range) is the outer `Option`
  being `none`;
* functions of the packages `core/protocol`, `core/curves`, `tecdsa/dklsv1`
  and `sha3` are parameters.
-/

namespace Mpc

/-! ## Errors -/

deriving instance DecidableEq for Except

/-- The error values the package creates or compares against; `other` stands
for any error produced by a collaborator, `curveConversion cause` for
`fmt.Errorf("error converting curve: %v", cause)`. -/
inductive Error where
  | malformedKeyshare
  | invalidKeyshareRole
  | malformedSignature
  | protocolFinished
  | other (code : Nat)
  | curveConversion (cause : Error)
  deriving DecidableEq, Repr

/-- Embedding of `ErrInvalidKeyshareRole` of `codec.go`. -/
def ErrInvalidKeyshareRole : Error := Error.invalidKeyshareRole

/-- Embedding of `protocol.ErrProtocolFinished`. -/
def ErrProtocolFinished : Error := Error.protocolFinished

/-! ## Bytes and big integers -/

/-- A Go `byte`. -/
abbrev Byte := Fin 256

/-- Worker of `bigBytes`: peels base-256 digits off `n`, least significant
first, pushing each in front of `acc`. -/
def bigBytesAux : Nat → Nat → List Byte → List Byte
  | 0, _, acc => acc
  | fuel + 1, n, acc =>
    if n = 0 then acc
    else bigBytesAux fuel (n / 256) (⟨n % 256, Nat.mod_lt n (by decide)⟩ :: acc)

/-- Go `(*big.Int).Bytes`: the big-endian bytes of the absolute value, without
leading zeros (the empty slice for zero). -/
def bigBytes (x : Int) : List Byte := bigBytesAux x.natAbs x.natAbs []

/-- Go `(*big.Int).SetBytes`: the big-endian unsigned value of a byte slice. -/
def SetBytes (bs : List Byte) : Int :=
  ((bs.foldl (fun acc b => acc * 256 + b.val) 0 : Nat) : Int)

/-- Go `make([]byte, n)`. -/
def makeBytes (n : Nat) : List Byte := List.replicate n 0

/-- Go `copy(buf[lo:hi], src)`: the slice expression panics unless
`0 ≤ lo ≤ hi ≤ len(buf)`; `copy` then moves `min(hi - lo, len(src))` bytes. -/
def copyInto (buf : List Byte) (lo hi : Int) (src : List Byte) : Option (List Byte) :=
  if 0 ≤ lo ∧ lo ≤ hi ∧ hi ≤ (buf.length : Int) then
    let n := min (hi - lo).toNat src.length
    some (buf.take lo.toNat ++ src.take n ++ buf.drop (lo.toNat + n))
  else none

/-- Go `byte(v)` for a Go `int`: truncation to the low eight bits. -/
def byteOfInt (v : Int) : Byte := ⟨(v % 256).toNat, by omega⟩

/-! ## Signatures (`codec.go`) -/

/-- Embedding of `curves.EcdsaSignature`. -/
structure Signature where
  V : Int
  R : Int
  S : Int
  deriving DecidableEq, Repr

/-- Embedding of `SerializeSignature`. The outer `none` is a slice-bounds panic; the error
the function returns is always `nil`, so a returned buffer is `Except.ok`. -/
def SerializeSignature (sig : Signature) : Option (Except Error (List Byte)) :=
  let rBytes := bigBytes sig.R
  let sBytes := bigBytes sig.S
  let sigBytes := makeBytes 66
  let sigBytes := sigBytes.set 0 (byteOfInt sig.V)
  match copyInto sigBytes (33 - (rBytes.length : Int)) 33 rBytes with
  | none => none
  | some sigBytes =>
    match copyInto sigBytes (66 - (sBytes.length : Int)) 66 sBytes with
    | none => none
    | some sigBytes => some (Except.ok sigBytes)

/-- Embedding of `DeserializeSignature`. -/
def DeserializeSignature (sigBytes : List Byte) : Except Error Signature :=
  if sigBytes.length ≠ 66 then Except.error Error.malformedSignature
  else
    Except.ok
      { V := ((sigBytes.getD 0 0).val : Int)
        R := SetBytes ((sigBytes.drop 1).take 32)
        S := SetBytes ((sigBytes.drop 33).take 33) }

/-! ## Roles (`codec.go`) -/

/-- A Go `string`. -/
abbrev GoString := List Char

/-- Go `strings.Split(s, sep)` for a one-character separator: the pieces of `s`
between consecutive separators; a string without separator is the only piece. -/
def Split : GoString → Char → List GoString
  | [], _ => [[]]
  | c :: cs, sep =>
    if c = sep then [] :: Split cs sep
    else
      match Split cs sep with
      | [] => [[c]]
      | p :: ps => (c :: p) :: ps

/-- Go `type Role string`. -/
abbrev Role := GoString

/-- Embedding of `RoleUser`. -/
def RoleUser : Role := "user".toList

/-- Embedding of `RoleValidator`. -/
def RoleValidator : Role := "validator".toList

/-- Embedding of `Role.String`. -/
def Role.String (r : Role) : GoString := r

/-- Embedding of `Role.IsBob`. -/
def Role.IsBob (r : Role) : Bool := decide (r = RoleUser)

/-- Embedding of `Role.IsAlice`. -/
def Role.IsAlice (r : Role) : Bool := decide (r = RoleValidator)

/-- Embedding of `ExtractRole`. Both `errors.New("malformed keyshare")` values of the file
are the one constructor `Error.malformedKeyshare`. The index `ptrs[0]` is
behind the length test. -/
def ExtractRole (s : GoString) : Except Error Role :=
  let ptrs := Split s ':'
  if ptrs.length ≠ 2 then Except.error Error.malformedKeyshare
  else
    let r : Role := ptrs.getD 0 []
    if r.IsBob || r.IsAlice then Except.ok r
    else Except.error ErrInvalidKeyshareRole

/-! ## Keyshares (`codec.go`, `share.go`) -/

/-- Go `type Share string`. -/
abbrev Share := GoString

/-- Embedding of `EncodeKeyshare`, over the collaborator `protocol.EncodeMessage`;
`fmt.Sprintf("%s:%s", role.String(), ks)` is concatenation around a colon. -/
def EncodeKeyshare {Msg : Type} (EncodeMessage : Msg → Except Error GoString)
    (msg : Msg) (role : Role) : Except Error Share :=
  match EncodeMessage msg with
  | Except.error err => Except.error err
  | Except.ok ks => Except.ok (role.String ++ [':'] ++ ks)

/-- Embedding of `DecodeKeyshare`, over the collaborator `protocol.DecodeMessage`. The
indices `ptrs[0]` and `ptrs[1]` are behind the length test. -/
def DecodeKeyshare {Msg : Type} (DecodeMessage : GoString → Except Error Msg)
    (s : GoString) : Except Error Share :=
  let ptrs := Split s ':'
  if ptrs.length ≠ 2 then Except.error Error.malformedKeyshare
  else
    match ExtractRole (ptrs.getD 0 []) with
    | Except.error err => Except.error err
    | Except.ok _ =>
      match DecodeMessage (ptrs.getD 1 []) with
      | Except.error err => Except.error err
      | Except.ok _ => Except.ok s

/-- Embedding of `NewKeyshareArray`. -/
def NewKeyshareArray {Msg : Type} (EncodeMessage : Msg → Except Error GoString)
    (val user : Msg) : Except Error (List Share) :=
  match EncodeKeyshare EncodeMessage val RoleValidator with
  | Except.error err => Except.error err
  | Except.ok valShare =>
    match EncodeKeyshare EncodeMessage user RoleUser with
    | Except.error err => Except.error err
    | Except.ok userShare => Except.ok [valShare, userShare]

/-- Embedding of `Share.Message`: the index `ptrs[1]` is not guarded, so a share without
separator panics (`none`). -/
def Share.Message {Msg : Type} (DecodeMessage : GoString → Except Error Msg)
    (k : Share) : Option (Except Error Msg) :=
  match (Split k ':')[1]? with
  | none => none
  | some p => some (DecodeMessage p)

/-- Embedding of `Share.Role`: the index `ptrs[0]` is not guarded (`none` is a panic). -/
def Share.Role (k : Share) : Option Role :=
  (Split k ':')[0]?

/-! ## The protocol driver (`mpc.go`) -/

/-- A `protocol.Iterator` with its mutable state made explicit. `Next` returns
the new state, the outgoing message and the status; a `*protocol.Message` is
an `Option M`, `none` being `nil`. -/
structure Iterator (σ M : Type) where
  Next : σ → Option M → σ × Option M × Option Error
  Result : σ → Option M × Option Error

/-- Which argument of `RunProtocol` a call went to. -/
inductive Party where
  | first
  | second
  deriving DecidableEq, Repr

/-- One `Next` call as the driver made it: a record kept beside the run. -/
structure Call (M : Type) where
  party : Party
  input : Option M
  output : Option M
  status : Option Error

/-- What a run of `RunProtocol` leaves behind: the two returned errors, the
participants' final states and the record of calls. -/
structure Outcome (σ₁ σ₂ M : Type) where
  aErr : Option Error
  bErr : Option Error
  s1 : σ₁
  s2 : σ₂
  calls : List (Call M)

/-- The `for` loop of `RunProtocol`; `fuel` bounds the number of times the
loop condition is evaluated, `none` is a run that needs more. -/
def RunProtocolLoop {σ₁ σ₂ M : Type} (firstParty : Iterator σ₁ M) (secondParty : Iterator σ₂ M) :
    Nat → Option M → Option Error → Option Error → σ₁ → σ₂ → List (Call M) →
      Option (Outcome σ₁ σ₂ M)
  | 0, _, _, _, _, _, _ => none
  | fuel + 1, message, aErr, bErr, s1, s2, calls =>
    if aErr ≠ some ErrProtocolFinished ∨ bErr ≠ some ErrProtocolFinished then
      let r1 := firstParty.Next s1 message
      let calls := calls ++ [⟨Party.first, message, r1.2.1, r1.2.2⟩]
      let message := r1.2.1
      let bErr := r1.2.2
      if bErr ≠ none ∧ bErr ≠ some ErrProtocolFinished then
        some ⟨none, bErr, r1.1, s2, calls⟩
      else
        let r2 := secondParty.Next s2 message
        let calls := calls ++ [⟨Party.second, message, r2.2.1, r2.2.2⟩]
        let message := r2.2.1
        let aErr := r2.2.2
        if aErr ≠ none ∧ aErr ≠ some ErrProtocolFinished then
          some ⟨aErr, none, r1.1, r2.1, calls⟩
        else
          RunProtocolLoop firstParty secondParty fuel message aErr bErr r1.1 r2.1 calls
    else some ⟨aErr, bErr, s1, s2, calls⟩

/-- Embedding of `RunProtocol`: `message`, `aErr` and `bErr` start as `nil`. -/
def RunProtocol {σ₁ σ₂ M : Type} (fuel : Nat) (firstParty : Iterator σ₁ M)
    (secondParty : Iterator σ₂ M) (s1 : σ₁) (s2 : σ₂) : Option (Outcome σ₁ σ₂ M) :=
  RunProtocolLoop firstParty secondParty fuel none none none s1 s2 []

/-- Embedding of `RunSignProtocol`, over the collaborator `dklsv1.DecodeSignature`. The
returned pair `(Signature, error)` is kept as a pair. -/
def RunSignProtocol {σ₁ σ₂ M : Type} (fuel : Nat)
    (DecodeSignature : Option M → Option Signature × Option Error)
    (signFuncVal : Iterator σ₁ M) (signFuncUser : Iterator σ₂ M) (s1 : σ₁) (s2 : σ₂) :
    Option (Option Signature × Option Error) :=
  match RunProtocol fuel signFuncVal signFuncUser s1 s2 with
  | none => none
  | some r =>
    if r.aErr ≠ some ErrProtocolFinished then some (none, r.aErr)
    else if r.bErr ≠ some ErrProtocolFinished then some (none, r.bErr)
    else
      match signFuncUser.Result r.s2 with
      | (_, some err) => some (none, some err)
      | (out, none) => some (DecodeSignature out)

/-- Embedding of `RunRefreshProtocol`, over the collaborator `protocol.EncodeMessage`. The
returned pair `([]Share, error)` is kept as a pair. -/
def RunRefreshProtocol {σ₁ σ₂ M : Type} (fuel : Nat)
    (EncodeMessage : Option M → Except Error GoString)
    (refreshFuncVal : Iterator σ₁ M) (refreshFuncUser : Iterator σ₂ M) (s1 : σ₁) (s2 : σ₂) :
    Option (Option (List Share) × Option Error) :=
  match RunProtocol fuel refreshFuncVal refreshFuncUser s1 s2 with
  | none => none
  | some r =>
    if r.aErr ≠ some ErrProtocolFinished then some (none, r.aErr)
    else if r.bErr ≠ some ErrProtocolFinished then some (none, r.bErr)
    else
      match refreshFuncVal.Result r.s1 with
      | (_, some err) => some (none, some err)
      | (valRefreshResult, none) =>
        match refreshFuncUser.Result r.s2 with
        | (_, some err) => some (none, some err)
        | (userRefreshResult, none) =>
          match NewKeyshareArray EncodeMessage valRefreshResult userRefreshResult with
          | Except.error err => some (none, some err)
          | Except.ok shares => some (some shares, none)

/-! ## The exchange, round by round -/

/-- The participants' states and the message in flight after `k` complete
rounds in which nobody stopped the loop. -/
def roundState {σ₁ σ₂ M : Type} (P : Iterator σ₁ M) (Q : Iterator σ₂ M) (s1 : σ₁) (s2 : σ₂) :
    Nat → σ₁ × σ₂ × Option M
  | 0 => (s1, s2, none)
  | k + 1 =>
    let st := roundState P Q s1 s2 k
    let r1 := P.Next st.1 st.2.2
    let r2 := Q.Next st.2.1 r1.2.1
    (r1.1, r2.1, r2.2.1)

/-- What the first party's `Next` returns in round `k + 1`. -/
def firstReply {σ₁ σ₂ M : Type} (P : Iterator σ₁ M) (Q : Iterator σ₂ M) (s1 : σ₁) (s2 : σ₂)
    (k : Nat) : σ₁ × Option M × Option Error :=
  P.Next (roundState P Q s1 s2 k).1 (roundState P Q s1 s2 k).2.2

/-- What the second party's `Next` returns in round `k + 1`. -/
def secondReply {σ₁ σ₂ M : Type} (P : Iterator σ₁ M) (Q : Iterator σ₂ M) (s1 : σ₁) (s2 : σ₂)
    (k : Nat) : σ₂ × Option M × Option Error :=
  Q.Next (roundState P Q s1 s2 k).2.1 (firstReply P Q s1 s2 k).2.1

/-- The first party's call of round `k + 1`. -/
def firstCall {σ₁ σ₂ M : Type} (P : Iterator σ₁ M) (Q : Iterator σ₂ M) (s1 : σ₁) (s2 : σ₂)
    (k : Nat) : Call M :=
  ⟨Party.first, (roundState P Q s1 s2 k).2.2, (firstReply P Q s1 s2 k).2.1,
    (firstReply P Q s1 s2 k).2.2⟩

/-- The second party's call of round `k + 1`. -/
def secondCall {σ₁ σ₂ M : Type} (P : Iterator σ₁ M) (Q : Iterator σ₂ M) (s1 : σ₁) (s2 : σ₂)
    (k : Nat) : Call M :=
  ⟨Party.second, (firstReply P Q s1 s2 k).2.1, (secondReply P Q s1 s2 k).2.1,
    (secondReply P Q s1 s2 k).2.2⟩

/-- The calls of the first `n` rounds, in order. -/
def callsUpto {σ₁ σ₂ M : Type} (P : Iterator σ₁ M) (Q : Iterator σ₂ M) (s1 : σ₁) (s2 : σ₂) :
    Nat → List (Call M)
  | 0 => []
  | n + 1 => callsUpto P Q s1 s2 n ++ [firstCall P Q s1 s2 n, secondCall P Q s1 s2 n]

/-- A status that does not abort the loop: `nil` or `ErrProtocolFinished`. -/
def passes (e : Option Error) : Prop := e = none ∨ e = some ErrProtocolFinished

instance (e : Option Error) : Decidable (passes e) := by
  unfold passes; infer_instance

/-- The value of `aErr` after `k` complete rounds. -/
def aErrAfter {σ₁ σ₂ M : Type} (P : Iterator σ₁ M) (Q : Iterator σ₂ M) (s1 : σ₁) (s2 : σ₂) :
    Nat → Option Error
  | 0 => none
  | k + 1 => (secondReply P Q s1 s2 k).2.2

/-- The value of `bErr` after `k` complete rounds. -/
def bErrAfter {σ₁ σ₂ M : Type} (P : Iterator σ₁ M) (Q : Iterator σ₂ M) (s1 : σ₁) (s2 : σ₂) :
    Nat → Option Error
  | 0 => none
  | k + 1 => (firstReply P Q s1 s2 k).2.2

/-- Round `k + 1` runs to its end and the loop goes on after it: both statuses
pass and they are not both `ErrProtocolFinished`. -/
def continues {σ₁ σ₂ M : Type} (P : Iterator σ₁ M) (Q : Iterator σ₂ M) (s1 : σ₁) (s2 : σ₂)
    (k : Nat) : Prop :=
  passes (firstReply P Q s1 s2 k).2.2 ∧ passes (secondReply P Q s1 s2 k).2.2
    ∧ ¬ ((firstReply P Q s1 s2 k).2.2 = some ErrProtocolFinished
        ∧ (secondReply P Q s1 s2 k).2.2 = some ErrProtocolFinished)

instance {σ₁ σ₂ M : Type} (P : Iterator σ₁ M) (Q : Iterator σ₂ M) (s1 : σ₁) (s2 : σ₂)
    (k : Nat) : Decidable (continues P Q s1 s2 k) := by
  unfold continues; infer_instance

/-! ## Decoding with the role check made a parameter -/

/-- The body of `DecodeKeyshare` with the role check passed in, to tell which
inputs reach it: `DecodeKeyshare` is this function at `ExtractRole`. -/
def DecodeKeyshareVia {Msg : Type} (extractRole : GoString → Except Error Role)
    (DecodeMessage : GoString → Except Error Msg) (s : GoString) : Except Error Share :=
  let ptrs := Split s ':'
  if ptrs.length ≠ 2 then Except.error Error.malformedKeyshare
  else
    match extractRole (ptrs.getD 0 []) with
    | Except.error err => Except.error err
    | Except.ok _ =>
      match DecodeMessage (ptrs.getD 1 []) with
      | Except.error err => Except.error err
      | Except.ok _ => Except.ok s

/-! ## Public keys (`share.go`, `base.go`) -/

/-- The collaborators of `core/protocol` and `tecdsa/dklsv1` that public-key
extraction goes through; `alicePublicKey` and `bobPublicKey` stand for
`out.PublicKey.ToAffineUncompressed()` on the two result types. -/
structure Dkg (Msg A B : Type) where
  DecodeMessage : GoString → Except Error Msg
  DecodeAliceDkgResult : Msg → Except Error A
  DecodeBobDkgResult : Msg → Except Error B
  alicePublicKey : A → List Byte
  bobPublicKey : B → List Byte

/-- Embedding of `Share.PublicKey`: the index `ptrs[1]` is not guarded
(`none` is a panic); the validator's role is tested first. -/
def Share.PublicKey {Msg A B : Type} (D : Dkg Msg A B) (k : Share) :
    Option (Except Error (List Byte)) :=
  match (Split k ':')[1]? with
  | none => none
  | some p =>
    match D.DecodeMessage p with
    | Except.error err => some (Except.error err)
    | Except.ok msg =>
      match Share.Role k with
      | none => none
      | some r =>
        if r.IsAlice then
          match D.DecodeAliceDkgResult msg with
          | Except.error err => some (Except.error err)
          | Except.ok out => some (Except.ok (D.alicePublicKey out))
        else if r.IsBob then
          match D.DecodeBobDkgResult msg with
          | Except.error err => some (Except.error err)
          | Except.ok out => some (Except.ok (D.bobPublicKey out))
        else some (Except.error ErrInvalidKeyshareRole)

/-- Embedding of `GetRawPublicKey`: it goes through `Share.Message`, and tests
the user's role first. -/
def GetRawPublicKey {Msg A B : Type} (D : Dkg Msg A B) (ks : Share) :
    Option (Except Error (List Byte)) :=
  match Share.Message D.DecodeMessage ks with
  | none => none
  | some (Except.error err) => some (Except.error err)
  | some (Except.ok msg) =>
    match Share.Role ks with
    | none => none
    | some r =>
      if r.IsBob then
        match D.DecodeBobDkgResult msg with
        | Except.error err => some (Except.error err)
        | Except.ok bobOut => some (Except.ok (D.bobPublicKey bobOut))
      else if r.IsAlice then
        match D.DecodeAliceDkgResult msg with
        | Except.error err => some (Except.error err)
        | Except.ok aliceOut => some (Except.ok (D.alicePublicKey aliceOut))
      else some (Except.error ErrInvalidKeyshareRole)

/-- What the specification says of public-key extraction, in its order: the
payload-decode error first, then the DKG-result decoder of the share's role
with its error or its public key, and `ErrInvalidKeyshareRole` when the role
is neither of the two. A share without payload has no result (`none`). -/
def publicKeySpec {Msg A B : Type} (D : Dkg Msg A B) (ks : Share) :
    Option (Except Error (List Byte)) :=
  match Share.Message D.DecodeMessage ks with
  | none => none
  | some (Except.error err) => some (Except.error err)
  | some (Except.ok msg) =>
    match Share.Role ks with
    | none => none
    | some r =>
      if r = RoleValidator then some ((D.DecodeAliceDkgResult msg).map D.alicePublicKey)
      else if r = RoleUser then some ((D.DecodeBobDkgResult msg).map D.bobPublicKey)
      else some (Except.error ErrInvalidKeyshareRole)

/-- Embedding of `curves.EcPoint`, over the curve type of the collaborator. -/
structure EcPoint (C : Type) where
  X : Int
  Y : Int
  Curve : C

/-- Embedding of `ComputeEcPoint`, over the collaborator's
`curves.K256().ToEllipticCurve()`. The slice `pubKey[1:33]` needs a capacity
of 33 and `pubKey[33:]` a length of 33, so the two together panic exactly on
inputs shorter than 33 bytes, before the curve is asked for. -/
def ComputeEcPoint {C : Type} (ToEllipticCurve : Except Error C) (pubKey : List Byte) :
    Option (Except Error (EcPoint C)) :=
  if pubKey.length < 33 then none
  else
    let x := SetBytes ((pubKey.drop 1).take 32)
    let y := SetBytes (pubKey.drop 33)
    match ToEllipticCurve with
    | Except.error err => some (Except.error (Error.curveConversion err))
    | Except.ok ecCurve => some (Except.ok { X := x, Y := y, Curve := ecCurve })

/-- Embedding of `VerifySignature`. The returned pair `(bool, error)` is kept
as a pair. Collaborators: `hashWrite` is the error of `hash.Write(msg)` on a
fresh `sha3.New256()`, `hashSum` the digest `hash.Sum(nil)` after it, and
`VerifyEcdsa` is `curves.VerifyEcdsa`. -/
def VerifySignature {Msg A B C : Type} (D : Dkg Msg A B) (ToEllipticCurve : Except Error C)
    (hashWrite : List Byte → Option Error) (hashSum : List Byte → List Byte)
    (VerifyEcdsa : EcPoint C → List Byte → Signature → Bool)
    (ks : Share) (msg sig : List Byte) : Option (Bool × Option Error) :=
  match Share.PublicKey D ks with
  | none => none
  | some (Except.error err) => some (false, some err)
  | some (Except.ok pk) =>
    match ComputeEcPoint ToEllipticCurve pk with
    | none => none
    | some (Except.error err) => some (false, some err)
    | some (Except.ok pp) =>
      match DeserializeSignature sig with
      | Except.error err => some (false, some err)
      | Except.ok sigEd =>
        match hashWrite msg with
        | some err => some (false, some err)
        | none => some (VerifyEcdsa pp (hashSum msg) sigEd, none)

/-! ## Sample collaborators, for evaluating public-key extraction -/

/-- A message codec that accepts every payload but `!`, with DKG decoders that
return the payload's length as the one byte of the key (the validator's) or
that byte after a zero byte (the user's). -/
def sampleDkg : Dkg GoString Nat Nat where
  DecodeMessage := fun p => if p = "!".toList then Except.error (Error.other 1) else Except.ok p
  DecodeAliceDkgResult := fun m => if m = [] then Except.error (Error.other 2) else Except.ok m.length
  DecodeBobDkgResult := fun m => if m = [] then Except.error (Error.other 3) else Except.ok m.length
  alicePublicKey := fun n => [Fin.ofNat n]
  bobPublicKey := fun n => [0, Fin.ofNat n]

/-- A DKG collaborator whose every share carries the same 65-byte key. -/
def constantDkg (pk : List Byte) : Dkg Unit Unit Unit where
  DecodeMessage := fun _ => Except.ok ()
  DecodeAliceDkgResult := fun _ => Except.ok ()
  DecodeBobDkgResult := fun _ => Except.ok ()
  alicePublicKey := fun _ => pk
  bobPublicKey := fun _ => pk

/-! ## Two small participants, for evaluating the driver -/

/-- A participant that counts its calls, answers with `tag` plus what it was
handed, and reports `ErrProtocolFinished` from its `n`-th call on. -/
def counting (n tag : Nat) : Iterator Nat Nat where
  Next := fun s m =>
    (s + 1, some (tag + m.getD 0), if n ≤ s + 1 then some ErrProtocolFinished else none)
  Result := fun s => (some s, none)

/-- A participant that counts its calls and fails with `e` at its `n`-th call. -/
def failingAt (n : Nat) (e : Error) : Iterator Nat Nat where
  Next := fun s m => (s + 1, m, if s + 1 = n then some e else none)
  Result := fun s => (some s, none)

/-! ## Lemmas on bytes -/

theorem bigBytesAux_val (fuel : Nat) : ∀ (n : Nat) (acc : List Byte), n ≤ fuel →
    (bigBytesAux fuel n acc).map Fin.val = (Nat.digits 256 n).reverse ++ acc.map Fin.val := by
  induction fuel with
  | zero =>
    intro n acc h
    have : n = 0 := by omega
    subst this
    simp [bigBytesAux]
  | succ f ih =>
    intro n acc h
    unfold bigBytesAux
    by_cases hn : n = 0
    · subst hn; simp
    · rw [if_neg hn]
      have hlt : n / 256 < n := Nat.div_lt_self (Nat.pos_of_ne_zero hn) (by decide)
      rw [ih (n / 256) _ (by omega)]
      rw [Nat.digits_def' (by decide : 1 < 256) (Nat.pos_of_ne_zero hn)]
      simp

theorem bigBytes_val (x : Int) :
    (bigBytes x).map Fin.val = (Nat.digits 256 x.natAbs).reverse := by
  unfold bigBytes
  rw [bigBytesAux_val _ _ _ (le_refl _)]
  simp

theorem bigBytes_length (x : Int) :
    (bigBytes x).length = (Nat.digits 256 x.natAbs).length := by
  have h := congrArg List.length (bigBytes_val x)
  simpa using h

theorem foldl_bytes (bs : List Byte) : ∀ acc : Nat,
    bs.foldl (fun acc b => acc * 256 + b.val) acc
      = acc * 256 ^ bs.length + Nat.ofDigits 256 (bs.map Fin.val).reverse := by
  induction bs with
  | nil => intro acc; simp
  | cons b bs ih =>
    intro acc
    simp only [List.foldl_cons, List.length_cons, List.map_cons, List.reverse_cons]
    rw [ih, Nat.ofDigits_append, Nat.ofDigits_singleton]
    simp only [List.length_reverse, List.length_map]
    ring

theorem SetBytes_eq (bs : List Byte) :
    SetBytes bs = ((Nat.ofDigits 256 (bs.map Fin.val).reverse : Nat) : Int) := by
  unfold SetBytes
  rw [foldl_bytes]
  simp

theorem SetBytes_bigBytes (x : Int) : SetBytes (bigBytes x) = (x.natAbs : Int) := by
  rw [SetBytes_eq, bigBytes_val, List.reverse_reverse, Nat.ofDigits_digits]

theorem SetBytes_append (as bs : List Byte) :
    SetBytes (as ++ bs) = SetBytes as * 256 ^ bs.length + SetBytes bs := by
  simp only [SetBytes, List.foldl_append]
  rw [foldl_bytes bs]
  rw [foldl_bytes bs 0]
  push_cast
  ring

theorem SetBytes_replicate_zero (k : Nat) : SetBytes (List.replicate k (0 : Byte)) = 0 := by
  induction k with
  | zero => rfl
  | succ k ih =>
    rw [List.replicate_succ']
    rw [SetBytes_append, ih]
    simp [SetBytes]

theorem SetBytes_pad (k : Nat) (bs : List Byte) :
    SetBytes (List.replicate k (0 : Byte) ++ bs) = SetBytes bs := by
  rw [SetBytes_append, SetBytes_replicate_zero]
  simp

theorem bigBytes_length_le (x : Int) (k : Nat) (h : x.natAbs < 256 ^ k) :
    (bigBytes x).length ≤ k := by
  rw [bigBytes_length]
  by_cases h0 : x.natAbs = 0
  · rw [h0]; simp
  · rw [Nat.digits_len 256 _ (by decide) h0]
    exact Nat.log_lt_of_lt_pow h0 h

theorem copyInto_append (A B C src : List Byte) (h : src.length = B.length) :
    copyInto (A ++ B ++ C) (A.length : Int) ((A.length : Int) + (B.length : Int)) src
      = some (A ++ src ++ C) := by
  unfold copyInto
  have hc : (0 : Int) ≤ (A.length : Int) ∧ (A.length : Int) ≤ (A.length : Int) + (B.length : Int)
      ∧ (A.length : Int) + (B.length : Int) ≤ ((A ++ B ++ C).length : Int) := by
    simp only [List.length_append]
    push_cast
    omega
  rw [if_pos hc]
  have hn : ((A.length : Int) + (B.length : Int) - (A.length : Int)).toNat = B.length := by
    omega
  have h1 : (A ++ B ++ C).take A.length = A := by
    rw [List.append_assoc]; exact List.take_left' rfl
  have h2 : (A ++ B ++ C).drop (A.length + B.length) = C := by
    have : A.length + B.length = (A ++ B).length := by simp
    rw [this]; exact List.drop_left' rfl
  have h3 : src.take B.length = src := by
    rw [← h]; exact List.take_length src
  simp only [hn, h, min_self, Int.toNat_ofNat, h1, h2, h3]

theorem copyInto_length (buf src r : List Byte) (lo hi : Int)
    (h : copyInto buf lo hi src = some r) : r.length = buf.length := by
  unfold copyInto at h
  split at h
  · rename_i hc
    simp only [Option.some.injEq] at h
    subst h
    simp only [List.length_append, List.length_take, List.length_drop]
    omega
  · simp at h

theorem copyInto_some (buf src : List Byte) (lo hi : Int)
    (h : 0 ≤ lo ∧ lo ≤ hi ∧ hi ≤ (buf.length : Int)) :
    ∃ r, copyInto buf lo hi src = some r := by
  unfold copyInto
  rw [if_pos h]
  exact ⟨_, rfl⟩

theorem copyInto_middle (A B C src : List Byte) (lo hi : Int)
    (hlo : lo = (A.length : Int)) (hhi : hi = (A.length : Int) + (B.length : Int))
    (h : src.length = B.length) :
    copyInto (A ++ B ++ C) lo hi src = some (A ++ src ++ C) := by
  subst hlo hhi
  exact copyInto_append A B C src h

theorem replicate_split (a b c n : Nat) (h : a + b + c = n) :
    List.replicate n (0 : Byte)
      = List.replicate a 0 ++ List.replicate b 0 ++ List.replicate c 0 := by
  subst h
  rw [List.replicate_add, List.replicate_add]

/-- The buffer `SerializeSignature` builds when `R` needs at most 32 bytes and
`S` at most 33. -/
theorem SerializeSignature_fits (sig : Signature)
    (hr : (bigBytes sig.R).length ≤ 32) (hs : (bigBytes sig.S).length ≤ 33) :
    SerializeSignature sig = some (Except.ok
      ([byteOfInt sig.V] ++ List.replicate (32 - (bigBytes sig.R).length) 0 ++ bigBytes sig.R
        ++ (List.replicate (33 - (bigBytes sig.S).length) 0 ++ bigBytes sig.S))) := by
  unfold SerializeSignature
  dsimp only
  have e1 : (makeBytes 66).set 0 (byteOfInt sig.V)
      = ([byteOfInt sig.V] ++ List.replicate (32 - (bigBytes sig.R).length) 0)
        ++ List.replicate (bigBytes sig.R).length 0 ++ List.replicate 33 0 := by
    have h65 := replicate_split (32 - (bigBytes sig.R).length) (bigBytes sig.R).length 33 65
      (by omega)
    have : (makeBytes 66).set 0 (byteOfInt sig.V)
        = [byteOfInt sig.V] ++ List.replicate 65 0 := rfl
    rw [this, h65]
    simp
  rw [e1, copyInto_middle _ _ _ (bigBytes sig.R) _ _ (by simp; omega) (by simp; omega) (by simp)]
  dsimp only
  have e2 : [byteOfInt sig.V] ++ List.replicate (32 - (bigBytes sig.R).length) 0
        ++ bigBytes sig.R ++ List.replicate 33 (0 : Byte)
      = ([byteOfInt sig.V] ++ List.replicate (32 - (bigBytes sig.R).length) 0
          ++ bigBytes sig.R ++ List.replicate (33 - (bigBytes sig.S).length) 0)
        ++ List.replicate (bigBytes sig.S).length 0 ++ [] := by
    have h33 := replicate_split (33 - (bigBytes sig.S).length) (bigBytes sig.S).length 0 33
      (by omega)
    rw [h33]
    simp
  rw [e2, copyInto_middle _ _ _ (bigBytes sig.S) _ _ (by simp; omega) (by simp; omega) (by simp)]
  simp

theorem bigBytes_length_le_iff (x : Int) (k : Nat) :
    (bigBytes x).length ≤ k ↔ x.natAbs < 256 ^ k := by
  constructor
  · intro h
    rw [bigBytes_length] at h
    calc x.natAbs < 256 ^ (Nat.digits 256 x.natAbs).length :=
          Nat.lt_base_pow_length_digits (by decide)
      _ ≤ 256 ^ k := Nat.pow_le_pow_right (by decide) h
  · exact bigBytes_length_le x k

theorem frame_slices (v : Byte) (X Y : List Byte) (hX : X.length = 32) (hY : Y.length = 33) :
    ([v] ++ X ++ Y).length = 66 ∧ ([v] ++ X ++ Y).getD 0 0 = v
      ∧ (([v] ++ X ++ Y).drop 1).take 32 = X ∧ (([v] ++ X ++ Y).drop 33).take 33 = Y := by
  refine ⟨by simp [hX, hY], by simp, ?_, ?_⟩
  · have : ([v] ++ X ++ Y).drop 1 = X ++ Y := by simp
    rw [this]
    exact List.take_left' hX
  · have h33 : ([v] ++ X).length = 33 := by simp [hX]
    rw [List.drop_left' h33]
    rw [← hY]
    exact List.take_length Y

theorem byteOfInt_val (v : Int) : ((byteOfInt v).val : Int) = v % 256 := by
  unfold byteOfInt
  simp only []
  omega

theorem byteOfInt_cast (v : Byte) : byteOfInt ((v.val : Nat) : Int) = v := by
  apply Fin.ext
  have h := v.isLt
  show ((v.val : Int) % 256).toNat = v.val
  omega

/-- With a non-zero leading byte, the bytes of the value are the bytes. -/
theorem bigBytes_SetBytes_cons (b : Byte) (X : List Byte) (hb : b ≠ 0) :
    bigBytes (SetBytes (b :: X)) = b :: X := by
  apply List.map_injective_iff.2 Fin.val_injective
  rw [bigBytes_val, SetBytes_eq, Int.natAbs_ofNat]
  have w1 : ∀ l ∈ ((b :: X).map Fin.val).reverse, l < 256 := by
    intro l hl
    rw [List.mem_reverse, List.mem_map] at hl
    obtain ⟨a, _, rfl⟩ := hl
    exact a.isLt
  have w2 : ∀ h : ((b :: X).map Fin.val).reverse ≠ [],
      (((b :: X).map Fin.val).reverse).getLast h ≠ 0 := by
    intro h
    rw [List.getLast_reverse]
    simp only [List.map_cons, List.head_cons]
    intro h0
    exact hb (Fin.ext h0)
  rw [Nat.digits_ofDigits 256 (by decide) _ w1 w2, List.reverse_reverse]

/-- Leading zeros that the conversion to a value drops are put back by
padding to the length of the field. -/
theorem bigBytes_SetBytes_pad (X : List Byte) :
    (bigBytes (SetBytes X)).length ≤ X.length
      ∧ List.replicate (X.length - (bigBytes (SetBytes X)).length) 0 ++ bigBytes (SetBytes X)
          = X := by
  induction X with
  | nil => exact ⟨by decide, by decide⟩
  | cons b X ih =>
    by_cases hb : b = 0
    · subst hb
      have e : SetBytes ((0 : Byte) :: X) = SetBytes X := SetBytes_pad 1 X
      rw [e]
      obtain ⟨hl, hx⟩ := ih
      refine ⟨by simp only [List.length_cons]; omega, ?_⟩
      have e2 : (0 :: X).length - (bigBytes (SetBytes X)).length
          = (X.length - (bigBytes (SetBytes X)).length) + 1 := by
        simp only [List.length_cons]; omega
      rw [e2, List.replicate_succ, List.cons_append, hx]
    · rw [bigBytes_SetBytes_cons b X hb]
      simp

/-! ## Lemmas on `Split` -/

theorem Split_ne_nil (s : GoString) (sep : Char) : Split s sep ≠ [] := by
  induction s with
  | nil => simp [Split]
  | cons c cs ih =>
    unfold Split
    split
    · simp
    · split <;> simp

theorem Split_cons_ne (c : Char) (cs : GoString) (sep : Char) (hc : ¬ c = sep) :
    Split (c :: cs) sep =
      match Split cs sep with
      | [] => [[c]]
      | p :: ps => (c :: p) :: ps := by
  rw [Split, if_neg hc]

theorem Split_of_not_mem (s : GoString) (sep : Char) (h : sep ∉ s) : Split s sep = [s] := by
  induction s with
  | nil => rfl
  | cons c cs ih =>
    have hc : ¬ c = sep := fun e => h (by simp [e])
    have hcs : sep ∉ cs := fun e => h (by simp [e])
    unfold Split
    rw [if_neg hc, ih hcs]

theorem Split_head (r rest : GoString) (sep : Char) (h : sep ∉ r) :
    Split (r ++ sep :: rest) sep = r :: Split rest sep := by
  induction r with
  | nil => simp [Split]
  | cons c cs ih =>
    have hc : ¬ c = sep := fun e => h (by simp [e])
    have hcs : sep ∉ cs := fun e => h (by simp [e])
    show Split (c :: (cs ++ sep :: rest)) sep = _
    rw [Split_cons_ne _ _ _ hc, ih hcs]

theorem Split_pieces (s : GoString) (sep : Char) : ∀ p ∈ Split s sep, sep ∉ p := by
  induction s with
  | nil => intro p hp; simp [Split] at hp; subst hp; simp
  | cons c cs ih =>
    intro p hp
    unfold Split at hp
    by_cases hc : c = sep
    · rw [if_pos hc] at hp
      rcases List.mem_cons.1 hp with h | h
      · subst h; simp
      · exact ih p h
    · rw [if_neg hc] at hp
      cases hsp : Split cs sep with
      | nil => exact absurd hsp (Split_ne_nil cs sep)
      | cons q qs =>
        rw [hsp] at hp ih
        rcases List.mem_cons.1 hp with h | h
        · subst h
          intro hm
          rcases List.mem_cons.1 hm with e | e
          · exact hc e.symm
          · exact ih q (by simp) e
        · exact ih p (by simp [h])

/-- The number of pieces is the number of separators plus one. -/
theorem Split_length (s : GoString) (sep : Char) :
    (Split s sep).length = s.count sep + 1 := by
  induction s with
  | nil => rfl
  | cons c cs ih =>
    by_cases hc : c = sep
    · subst hc
      rw [Split, if_pos rfl]
      simp [ih]
    · rw [Split_cons_ne _ _ _ hc]
      have hne : (c == sep) = false := by simpa using hc
      rw [List.count_cons, hne]
      cases hsp : Split cs sep with
      | nil => exact absurd hsp (Split_ne_nil cs sep)
      | cons q qs =>
        rw [hsp] at ih
        simpa using ih

/-- A text with one separator, between two parts free of it, splits into
those two parts. -/
theorem Split_two (t p : GoString) (sep : Char) (ht : sep ∉ t) (hp : sep ∉ p) :
    Split (t ++ sep :: p) sep = [t, p] := by
  rw [Split_head t p sep ht, Split_of_not_mem p sep hp]

/-- Note that `ExtractRole` splits its argument again, so a text without separator is
turned down before its role is looked at. -/
theorem ExtractRole_of_not_mem (s : GoString) (h : ':' ∉ s) :
    ExtractRole s = Except.error Error.malformedKeyshare := by
  unfold ExtractRole
  rw [Split_of_not_mem s ':' h]
  rfl

/-- Note that `DecodeKeyshare` hands `ExtractRole` a piece of its own split. -/
theorem DecodeKeyshare_rejects {Msg : Type} (dec : GoString → Except Error Msg) (s : GoString) :
    DecodeKeyshare dec s = Except.error Error.malformedKeyshare := by
  unfold DecodeKeyshare
  dsimp only
  split
  · rfl
  · have hmem : ':' ∉ (Split s ':').getD 0 [] := by
      cases hsp : Split s ':' with
      | nil => simp
      | cons q qs =>
        have := Split_pieces s ':' q (by simp [hsp])
        simpa using this
    rw [ExtractRole_of_not_mem _ hmem]

theorem copyInto_none (buf src : List Byte) (lo hi : Int)
    (h : ¬ (0 ≤ lo ∧ lo ≤ hi ∧ hi ≤ (buf.length : Int))) :
    copyInto buf lo hi src = none := by
  unfold copyInto
  rw [if_neg h]

/-- The three ways `SerializeSignature` can go, by the byte lengths of `R`
and `S`. -/
theorem SerializeSignature_cases (sig : Signature) :
    ((bigBytes sig.R).length ≤ 33 ∧ (bigBytes sig.S).length ≤ 66
        ∧ ∃ bs, SerializeSignature sig = some (Except.ok bs) ∧ bs.length = 66)
      ∨ (¬ ((bigBytes sig.R).length ≤ 33 ∧ (bigBytes sig.S).length ≤ 66)
        ∧ SerializeSignature sig = none) := by
  have hbuf : ((makeBytes 66).set 0 (byteOfInt sig.V)).length = 66 := by
    simp [makeBytes]
  by_cases hr : (bigBytes sig.R).length ≤ 33
  · obtain ⟨b1, hb1⟩ := copyInto_some ((makeBytes 66).set 0 (byteOfInt sig.V)) (bigBytes sig.R)
      (33 - ((bigBytes sig.R).length : Int)) 33 (by rw [hbuf]; omega)
    have l1 : b1.length = 66 := by rw [copyInto_length _ _ _ _ _ hb1, hbuf]
    by_cases hs : (bigBytes sig.S).length ≤ 66
    · obtain ⟨b2, hb2⟩ := copyInto_some b1 (bigBytes sig.S)
        (66 - ((bigBytes sig.S).length : Int)) 66 (by rw [l1]; omega)
      have l2 : b2.length = 66 := by rw [copyInto_length _ _ _ _ _ hb2, l1]
      left
      refine ⟨hr, hs, b2, ?_, l2⟩
      unfold SerializeSignature
      dsimp only
      rw [hb1]
      dsimp only
      rw [hb2]
    · right
      refine ⟨fun h => hs h.2, ?_⟩
      unfold SerializeSignature
      dsimp only
      rw [hb1]
      dsimp only
      rw [copyInto_none _ _ _ _ (by rw [l1]; omega)]
  · right
    refine ⟨fun h => hr h.1, ?_⟩
    unfold SerializeSignature
    dsimp only
    rw [copyInto_none _ _ _ _ (by rw [hbuf]; omega)]

/-! ## Lemmas on the driver loop -/

/-- One turn of the loop in which neither status aborts. -/
theorem RunProtocolLoop_round {σ₁ σ₂ M : Type} (P : Iterator σ₁ M) (Q : Iterator σ₂ M)
    (fuel : Nat) (message : Option M) (aErr bErr : Option Error) (s1 : σ₁) (s2 : σ₂)
    (calls : List (Call M))
    (hcond : aErr ≠ some ErrProtocolFinished ∨ bErr ≠ some ErrProtocolFinished)
    (h1 : passes (P.Next s1 message).2.2)
    (h2 : passes (Q.Next s2 (P.Next s1 message).2.1).2.2) :
    RunProtocolLoop P Q (fuel + 1) message aErr bErr s1 s2 calls
      = RunProtocolLoop P Q fuel (Q.Next s2 (P.Next s1 message).2.1).2.1
          (Q.Next s2 (P.Next s1 message).2.1).2.2 (P.Next s1 message).2.2
          (P.Next s1 message).1 (Q.Next s2 (P.Next s1 message).2.1).1
          (calls ++ [⟨Party.first, message, (P.Next s1 message).2.1, (P.Next s1 message).2.2⟩,
            ⟨Party.second, (P.Next s1 message).2.1, (Q.Next s2 (P.Next s1 message).2.1).2.1,
              (Q.Next s2 (P.Next s1 message).2.1).2.2⟩]) := by
  have n1 : ¬ ((P.Next s1 message).2.2 ≠ none
      ∧ (P.Next s1 message).2.2 ≠ some ErrProtocolFinished) := by
    rcases h1 with h | h <;> simp [h]
  have n2 : ¬ ((Q.Next s2 (P.Next s1 message).2.1).2.2 ≠ none
      ∧ (Q.Next s2 (P.Next s1 message).2.1).2.2 ≠ some ErrProtocolFinished) := by
    rcases h2 with h | h <;> simp [h]
  rw [RunProtocolLoop]
  rw [if_pos hcond]
  dsimp only
  rw [if_neg n1, if_neg n2, List.append_assoc]
  rfl

/-- A turn of the loop in which the first party's status aborts. -/
theorem RunProtocolLoop_abort_first {σ₁ σ₂ M : Type} (P : Iterator σ₁ M) (Q : Iterator σ₂ M)
    (fuel : Nat) (message : Option M) (aErr bErr : Option Error) (s1 : σ₁) (s2 : σ₂)
    (calls : List (Call M))
    (hcond : aErr ≠ some ErrProtocolFinished ∨ bErr ≠ some ErrProtocolFinished)
    (h1 : ¬ passes (P.Next s1 message).2.2) :
    RunProtocolLoop P Q (fuel + 1) message aErr bErr s1 s2 calls
      = some ⟨none, (P.Next s1 message).2.2, (P.Next s1 message).1, s2,
          calls ++ [⟨Party.first, message, (P.Next s1 message).2.1, (P.Next s1 message).2.2⟩]⟩ := by
  have n1 : (P.Next s1 message).2.2 ≠ none
      ∧ (P.Next s1 message).2.2 ≠ some ErrProtocolFinished :=
    ⟨fun h => h1 (Or.inl h), fun h => h1 (Or.inr h)⟩
  rw [RunProtocolLoop]
  rw [if_pos hcond]
  dsimp only
  rw [if_pos n1]

/-- A turn of the loop in which the second party's status aborts. -/
theorem RunProtocolLoop_abort_second {σ₁ σ₂ M : Type} (P : Iterator σ₁ M) (Q : Iterator σ₂ M)
    (fuel : Nat) (message : Option M) (aErr bErr : Option Error) (s1 : σ₁) (s2 : σ₂)
    (calls : List (Call M))
    (hcond : aErr ≠ some ErrProtocolFinished ∨ bErr ≠ some ErrProtocolFinished)
    (h1 : passes (P.Next s1 message).2.2)
    (h2 : ¬ passes (Q.Next s2 (P.Next s1 message).2.1).2.2) :
    RunProtocolLoop P Q (fuel + 1) message aErr bErr s1 s2 calls
      = some ⟨(Q.Next s2 (P.Next s1 message).2.1).2.2, none,
          (P.Next s1 message).1, (Q.Next s2 (P.Next s1 message).2.1).1,
          calls ++ [⟨Party.first, message, (P.Next s1 message).2.1, (P.Next s1 message).2.2⟩,
            ⟨Party.second, (P.Next s1 message).2.1, (Q.Next s2 (P.Next s1 message).2.1).2.1,
              (Q.Next s2 (P.Next s1 message).2.1).2.2⟩]⟩ := by
  have n1 : ¬ ((P.Next s1 message).2.2 ≠ none
      ∧ (P.Next s1 message).2.2 ≠ some ErrProtocolFinished) := by
    rcases h1 with h | h <;> simp [h]
  have n2 : (Q.Next s2 (P.Next s1 message).2.1).2.2 ≠ none
      ∧ (Q.Next s2 (P.Next s1 message).2.1).2.2 ≠ some ErrProtocolFinished :=
    ⟨fun h => h2 (Or.inl h), fun h => h2 (Or.inr h)⟩
  rw [RunProtocolLoop]
  rw [if_pos hcond]
  dsimp only
  rw [if_neg n1, if_pos n2, List.append_assoc]
  rfl

/-- The loop test fails: the loop is left with the two statuses. -/
theorem RunProtocolLoop_exit {σ₁ σ₂ M : Type} (P : Iterator σ₁ M) (Q : Iterator σ₂ M)
    (fuel : Nat) (message : Option M) (s1 : σ₁) (s2 : σ₂) (calls : List (Call M)) :
    RunProtocolLoop P Q (fuel + 1) message (some ErrProtocolFinished)
        (some ErrProtocolFinished) s1 s2 calls
      = some ⟨some ErrProtocolFinished, some ErrProtocolFinished, s1, s2, calls⟩ := by
  rw [RunProtocolLoop]
  rw [if_neg (by simp)]

/-- The loop test holds after `k` rounds that all went on. -/
theorem loop_test_after {σ₁ σ₂ M : Type} (P : Iterator σ₁ M) (Q : Iterator σ₂ M)
    (s1 : σ₁) (s2 : σ₂) (k : Nat) (h : ∀ j, j < k → continues P Q s1 s2 j) :
    aErrAfter P Q s1 s2 k ≠ some ErrProtocolFinished
      ∨ bErrAfter P Q s1 s2 k ≠ some ErrProtocolFinished := by
  cases k with
  | zero => left; simp [aErrAfter]
  | succ k =>
    have hk := (h k (Nat.lt_succ_self k)).2.2
    simp only [aErrAfter, bErrAfter]
    by_cases ha : (secondReply P Q s1 s2 k).2.2 = some ErrProtocolFinished
    · right
      intro hb
      exact hk ⟨hb, ha⟩
    · left; exact ha

/-- After `k` rounds that all went on, the loop stands at the state of the
round-by-round exchange, having made exactly the calls of those rounds. -/
theorem RunProtocolLoop_rounds {σ₁ σ₂ M : Type} (P : Iterator σ₁ M) (Q : Iterator σ₂ M)
    (s1 : σ₁) (s2 : σ₂) (k : Nat) (h : ∀ j, j < k → continues P Q s1 s2 j) (fuel : Nat) :
    RunProtocolLoop P Q (k + fuel) none none none s1 s2 []
      = RunProtocolLoop P Q fuel (roundState P Q s1 s2 k).2.2 (aErrAfter P Q s1 s2 k)
          (bErrAfter P Q s1 s2 k) (roundState P Q s1 s2 k).1 (roundState P Q s1 s2 k).2.1
          (callsUpto P Q s1 s2 k) := by
  induction k generalizing fuel with
  | zero => simp [roundState, aErrAfter, bErrAfter, callsUpto]
  | succ k ih =>
    have hprev : ∀ j, j < k → continues P Q s1 s2 j := fun j hj => h j (Nat.lt_succ_of_lt hj)
    have hk := h k (Nat.lt_succ_self k)
    have e : k + 1 + fuel = k + (fuel + 1) := by omega
    rw [e, ih hprev (fuel + 1)]
    rw [RunProtocolLoop_round P Q fuel _ _ _ _ _ _ (loop_test_after P Q s1 s2 k hprev)
      hk.1 hk.2.1]
    rfl

/-- The run in which round `k + 1` is the first where both report
`ErrProtocolFinished`. -/
theorem RunProtocol_finish_at {σ₁ σ₂ M : Type} (P : Iterator σ₁ M) (Q : Iterator σ₂ M)
    (s1 : σ₁) (s2 : σ₂) (k : Nat) (h : ∀ j, j < k → continues P Q s1 s2 j)
    (hf : (firstReply P Q s1 s2 k).2.2 = some ErrProtocolFinished)
    (hs : (secondReply P Q s1 s2 k).2.2 = some ErrProtocolFinished) (fuel : Nat) :
    RunProtocol (k + (fuel + 2)) P Q s1 s2
      = some ⟨some ErrProtocolFinished, some ErrProtocolFinished,
          (roundState P Q s1 s2 (k + 1)).1, (roundState P Q s1 s2 (k + 1)).2.1,
          callsUpto P Q s1 s2 (k + 1)⟩ := by
  unfold RunProtocol
  rw [RunProtocolLoop_rounds P Q s1 s2 k h (fuel + 2)]
  have p1 : passes (P.Next (roundState P Q s1 s2 k).1 (roundState P Q s1 s2 k).2.2).2.2 :=
    Or.inr hf
  have p2 : passes (Q.Next (roundState P Q s1 s2 k).2.1
      (P.Next (roundState P Q s1 s2 k).1 (roundState P Q s1 s2 k).2.2).2.1).2.2 := Or.inr hs
  rw [RunProtocolLoop_round P Q (fuel + 1) _ _ _ _ _ _ (loop_test_after P Q s1 s2 k h) p1 p2]
  have hf2 : (P.Next (roundState P Q s1 s2 k).1 (roundState P Q s1 s2 k).2.2).2.2
      = some ErrProtocolFinished := hf
  have hs2 : (Q.Next (roundState P Q s1 s2 k).2.1
      (P.Next (roundState P Q s1 s2 k).1 (roundState P Q s1 s2 k).2.2).2.1).2.2
      = some ErrProtocolFinished := hs
  rw [hf2, hs2, RunProtocolLoop_exit]
  simp only [callsUpto, firstCall, secondCall, firstReply, secondReply, roundState, hf2, hs2]

/-- The run in which the first party's status in round `k + 1` aborts. -/
theorem RunProtocol_abort_first_at {σ₁ σ₂ M : Type} (P : Iterator σ₁ M) (Q : Iterator σ₂ M)
    (s1 : σ₁) (s2 : σ₂) (k : Nat) (h : ∀ j, j < k → continues P Q s1 s2 j)
    (hf : ¬ passes (firstReply P Q s1 s2 k).2.2) (fuel : Nat) :
    RunProtocol (k + (fuel + 1)) P Q s1 s2
      = some ⟨none, (firstReply P Q s1 s2 k).2.2, (firstReply P Q s1 s2 k).1,
          (roundState P Q s1 s2 k).2.1, callsUpto P Q s1 s2 k ++ [firstCall P Q s1 s2 k]⟩ := by
  unfold RunProtocol
  rw [RunProtocolLoop_rounds P Q s1 s2 k h (fuel + 1)]
  rw [RunProtocolLoop_abort_first P Q fuel _ _ _ _ _ _ (loop_test_after P Q s1 s2 k h) hf]
  rfl

/-- The run in which the second party's status in round `k + 1` aborts. -/
theorem RunProtocol_abort_second_at {σ₁ σ₂ M : Type} (P : Iterator σ₁ M) (Q : Iterator σ₂ M)
    (s1 : σ₁) (s2 : σ₂) (k : Nat) (h : ∀ j, j < k → continues P Q s1 s2 j)
    (hf : passes (firstReply P Q s1 s2 k).2.2)
    (hs : ¬ passes (secondReply P Q s1 s2 k).2.2) (fuel : Nat) :
    RunProtocol (k + (fuel + 1)) P Q s1 s2
      = some ⟨(secondReply P Q s1 s2 k).2.2, none, (firstReply P Q s1 s2 k).1,
          (secondReply P Q s1 s2 k).1, callsUpto P Q s1 s2 (k + 1)⟩ := by
  unfold RunProtocol
  rw [RunProtocolLoop_rounds P Q s1 s2 k h (fuel + 1)]
  rw [RunProtocolLoop_abort_second P Q fuel _ _ _ _ _ _ (loop_test_after P Q s1 s2 k h) hf hs]
  rfl

/-- A run whose first `fuel` rounds all go on uses its fuel up. -/
theorem RunProtocol_out_of_fuel {σ₁ σ₂ M : Type} (P : Iterator σ₁ M) (Q : Iterator σ₂ M)
    (s1 : σ₁) (s2 : σ₂) (fuel : Nat) (h : ∀ j, j < fuel → continues P Q s1 s2 j) :
    RunProtocol fuel P Q s1 s2 = none := by
  unfold RunProtocol
  have := RunProtocolLoop_rounds P Q s1 s2 fuel h 0
  rw [Nat.add_zero] at this
  rw [this]
  rfl

/-- A run with fuel for round `k + 1` but not for the loop test after it. -/
theorem RunProtocol_short {σ₁ σ₂ M : Type} (P : Iterator σ₁ M) (Q : Iterator σ₂ M)
    (s1 : σ₁) (s2 : σ₂) (k : Nat) (h : ∀ j, j < k → continues P Q s1 s2 j)
    (hf : passes (firstReply P Q s1 s2 k).2.2) (hs : passes (secondReply P Q s1 s2 k).2.2) :
    RunProtocol (k + 1) P Q s1 s2 = none := by
  unfold RunProtocol
  rw [RunProtocolLoop_rounds P Q s1 s2 k h 1]
  rw [RunProtocolLoop_round P Q 0 _ _ _ _ _ _ (loop_test_after P Q s1 s2 k h) hf hs]
  rfl

/-- A run that returns both statuses as `ErrProtocolFinished` left the loop by
its test, after a round in which both reported it, all rounds before having
gone on. -/
theorem RunProtocol_exit_inv {σ₁ σ₂ M : Type} (P : Iterator σ₁ M) (Q : Iterator σ₂ M)
    (s1 : σ₁) (s2 : σ₂) (fuel : Nat) (r : Outcome σ₁ σ₂ M)
    (h : RunProtocol fuel P Q s1 s2 = some r)
    (ha : r.aErr = some ErrProtocolFinished) (hb : r.bErr = some ErrProtocolFinished) :
    ∃ k, (∀ j, j < k → continues P Q s1 s2 j)
      ∧ (firstReply P Q s1 s2 k).2.2 = some ErrProtocolFinished
      ∧ (secondReply P Q s1 s2 k).2.2 = some ErrProtocolFinished
      ∧ r.calls = callsUpto P Q s1 s2 (k + 1) ∧ k + 1 < fuel := by
  by_cases hall : ∀ j, j < fuel → continues P Q s1 s2 j
  · rw [RunProtocol_out_of_fuel P Q s1 s2 fuel hall] at h
    cases h
  · have hex : ∃ j, j < fuel ∧ ¬ continues P Q s1 s2 j := by
      by_contra hne
      apply hall
      intro j hj
      by_contra hc
      exact hne ⟨j, hj, hc⟩
    obtain ⟨hlt, hnot⟩ := Nat.find_spec hex
    have hmin : ∀ j, j < Nat.find hex → continues P Q s1 s2 j := by
      intro j hj
      by_contra hc
      exact Nat.find_min hex hj ⟨lt_trans hj hlt, hc⟩
    generalize Nat.find hex = k at hlt hnot hmin
    obtain ⟨f, rfl⟩ : ∃ f, fuel = k + (f + 1) := ⟨fuel - k - 1, by omega⟩
    by_cases hf : passes (firstReply P Q s1 s2 k).2.2
    · by_cases hs : passes (secondReply P Q s1 s2 k).2.2
      · have hboth : (firstReply P Q s1 s2 k).2.2 = some ErrProtocolFinished
            ∧ (secondReply P Q s1 s2 k).2.2 = some ErrProtocolFinished := by
          by_contra hc
          exact hnot ⟨hf, hs, hc⟩
        cases f with
        | zero =>
          rw [RunProtocol_short P Q s1 s2 k hmin hf hs] at h
          cases h
        | succ f =>
          rw [RunProtocol_finish_at P Q s1 s2 k hmin hboth.1 hboth.2 f] at h
          cases h
          exact ⟨k, hmin, hboth.1, hboth.2, rfl, by omega⟩
      · rw [RunProtocol_abort_second_at P Q s1 s2 k hmin hf hs f] at h
        cases h
        cases hb
    · rw [RunProtocol_abort_first_at P Q s1 s2 k hmin hf f] at h
      cases h
      cases ha

theorem callsUpto_length {σ₁ σ₂ M : Type} (P : Iterator σ₁ M) (Q : Iterator σ₂ M)
    (s1 : σ₁) (s2 : σ₂) (n : Nat) : (callsUpto P Q s1 s2 n).length = 2 * n := by
  induction n with
  | zero => rfl
  | succ n ih => simp [callsUpto, ih]; omega

/-- The calls of round `k + 1` sit at positions `2 k` and `2 k + 1`. -/
theorem callsUpto_get {σ₁ σ₂ M : Type} (P : Iterator σ₁ M) (Q : Iterator σ₂ M)
    (s1 : σ₁) (s2 : σ₂) (n k : Nat) (hk : k < n) :
    (callsUpto P Q s1 s2 n)[2 * k]? = some (firstCall P Q s1 s2 k)
      ∧ (callsUpto P Q s1 s2 n)[2 * k + 1]? = some (secondCall P Q s1 s2 k) := by
  induction n with
  | zero => omega
  | succ n ih =>
    have hlen := callsUpto_length P Q s1 s2 n
    simp only [callsUpto]
    by_cases hkn : k < n
    · obtain ⟨a, b⟩ := ih hkn
      constructor
      · rw [List.getElem?_append_left (by omega)]; exact a
      · rw [List.getElem?_append_left (by omega)]; exact b
    · have e : k = n := by omega
      subst e
      constructor
      · rw [List.getElem?_append_right (by omega)]
        simp [hlen]
      · rw [List.getElem?_append_right (by omega)]
        have : 2 * k + 1 - (callsUpto P Q s1 s2 k).length = 1 := by omega
        simp [this]

theorem callsUpto_count {σ₁ σ₂ M : Type} (P : Iterator σ₁ M) (Q : Iterator σ₂ M)
    (s1 : σ₁) (s2 : σ₂) (n : Nat) :
    (callsUpto P Q s1 s2 n).countP (fun c => decide (c.party = Party.first)) = n
      ∧ (callsUpto P Q s1 s2 n).countP (fun c => decide (c.party = Party.second)) = n := by
  induction n with
  | zero => simp [callsUpto]
  | succ n ih =>
    simp only [callsUpto, List.countP_append, ih.1, ih.2]
    simp [firstCall, secondCall, List.countP_cons]

/-! ## The signature codec -/

theorem natAbs_lt_of_fits (x : Int) (h : 0 ≤ x ∧ x < 2 ^ 256) : x.natAbs < 256 ^ 32 := by
  have e : (256 : Nat) ^ 32 = 2 ^ 256 := by norm_num
  rw [e]
  omega

/-- C1: for every signature with `0 ≤ V ≤ 255` and `R`, `S` non-negative and
below `2 ^ 256`, `SerializeSignature` returns a buffer on which
`DeserializeSignature` succeeds with the same `V`, `R` and `S`. -/
theorem signature_roundtrip (sig : Signature) (hV : 0 ≤ sig.V ∧ sig.V ≤ 255)
    (hR : 0 ≤ sig.R ∧ sig.R < 2 ^ 256) (hS : 0 ≤ sig.S ∧ sig.S < 2 ^ 256) :
    ∃ bs, SerializeSignature sig = some (Except.ok bs)
      ∧ DeserializeSignature bs = Except.ok sig := by
  have hr : (bigBytes sig.R).length ≤ 32 := bigBytes_length_le _ _ (natAbs_lt_of_fits _ hR)
  have hs : (bigBytes sig.S).length ≤ 33 :=
    le_trans (bigBytes_length_le _ _ (natAbs_lt_of_fits _ hS)) (by decide)
  refine ⟨_, SerializeSignature_fits sig hr hs, ?_⟩
  obtain ⟨hlen, h0, h1, h2⟩ := frame_slices (byteOfInt sig.V)
    (List.replicate (32 - (bigBytes sig.R).length) 0 ++ bigBytes sig.R)
    (List.replicate (33 - (bigBytes sig.S).length) 0 ++ bigBytes sig.S)
    (by simp; omega) (by simp; omega)
  simp only [← List.append_assoc] at hlen h0 h1 h2 ⊢
  unfold DeserializeSignature
  rw [if_neg (by rw [hlen]; simp)]
  simp only [List.append_assoc] at h0 h1 h2 ⊢
  rw [h0, h1, h2, SetBytes_pad, SetBytes_pad, SetBytes_bigBytes, SetBytes_bigBytes,
    byteOfInt_val]
  obtain ⟨v, r, t⟩ := sig
  simp only [Except.ok.injEq, Signature.mk.injEq] at hV hR hS ⊢
  omega

theorem signature_roundtrip_witness :
    ∃ bs, SerializeSignature ⟨27, 1, 2⟩ = some (Except.ok bs)
      ∧ DeserializeSignature bs = Except.ok ⟨27, 1, 2⟩ :=
  signature_roundtrip ⟨27, 1, 2⟩ (by decide) (by norm_num) (by norm_num)

/-- C7: `DeserializeSignature` fails, with the malformed-signature error,
exactly on inputs whose length is not 66; on a 66-byte input it returns
`V = bytes[0]` and the big-endian unsigned values of `bytes[1:33]` and
`bytes[33:66]` as `R` and `S`. Buffers of 65 and 67 bytes fail and 66 zero
bytes give `V = 0`, `R = 0`, `S = 0`. -/
theorem DeserializeSignature_spec :
    (∀ b : List Byte,
      ((∃ e, DeserializeSignature b = Except.error e) ↔ b.length ≠ 66)
      ∧ DeserializeSignature b =
          if b.length = 66 then
            Except.ok
              { V := ((b.getD 0 0).val : Int)
                R := ((Nat.ofDigits 256 (((b.drop 1).take 32).map Fin.val).reverse : Nat) : Int)
                S := ((Nat.ofDigits 256 (((b.drop 33).take 33).map Fin.val).reverse : Nat) : Int) }
          else Except.error Error.malformedSignature)
    ∧ DeserializeSignature (List.replicate 65 0) = Except.error Error.malformedSignature
    ∧ DeserializeSignature (List.replicate 67 0) = Except.error Error.malformedSignature
    ∧ DeserializeSignature (List.replicate 66 0) = Except.ok ⟨0, 0, 0⟩ := by
  refine ⟨?_, by decide, by decide, by decide⟩
  intro b
  unfold DeserializeSignature
  by_cases h : b.length = 66
  · simp [h, SetBytes_eq]
  · simp [h]

/-- C8: for `R` and `S` non-negative and below `2 ^ 256`, `SerializeSignature`
returns 66 bytes: byte 0 is `V mod 256`, `bytes[1:33]` is the big-endian
digits of `R` behind zero padding (32 bytes, of value `R`) and `bytes[33:66]`
the big-endian digits of `S` behind zero padding (33 bytes, of value `S`). -/
theorem SerializeSignature_layout (sig : Signature)
    (hR : 0 ≤ sig.R ∧ sig.R < 2 ^ 256) (hS : 0 ≤ sig.S ∧ sig.S < 2 ^ 256) :
    ∃ bs, SerializeSignature sig = some (Except.ok bs) ∧ bs.length = 66
      ∧ ((bs.getD 0 0).val : Int) = sig.V % 256
      ∧ ((bs.drop 1).take 32).map Fin.val
          = List.replicate (32 - (Nat.digits 256 sig.R.toNat).length) 0
              ++ (Nat.digits 256 sig.R.toNat).reverse
      ∧ ((bs.drop 33).take 33).map Fin.val
          = List.replicate (33 - (Nat.digits 256 sig.S.toNat).length) 0
              ++ (Nat.digits 256 sig.S.toNat).reverse
      ∧ ((bs.drop 1).take 32).length = 32 ∧ ((bs.drop 33).take 33).length = 33
      ∧ ((Nat.ofDigits 256 (((bs.drop 1).take 32).map Fin.val).reverse : Nat) : Int) = sig.R
      ∧ ((Nat.ofDigits 256 (((bs.drop 33).take 33).map Fin.val).reverse : Nat) : Int) = sig.S := by
  have hr : (bigBytes sig.R).length ≤ 32 := bigBytes_length_le _ _ (natAbs_lt_of_fits _ hR)
  have hs : (bigBytes sig.S).length ≤ 33 :=
    le_trans (bigBytes_length_le _ _ (natAbs_lt_of_fits _ hS)) (by decide)
  refine ⟨_, SerializeSignature_fits sig hr hs, ?_⟩
  obtain ⟨hlen, h0, h1, h2⟩ := frame_slices (byteOfInt sig.V)
    (List.replicate (32 - (bigBytes sig.R).length) 0 ++ bigBytes sig.R)
    (List.replicate (33 - (bigBytes sig.S).length) 0 ++ bigBytes sig.S)
    (by simp; omega) (by simp; omega)
  simp only [List.append_assoc] at hlen h0 h1 h2 ⊢
  have eR : sig.R.toNat = sig.R.natAbs := by omega
  have eS : sig.S.toNat = sig.S.natAbs := by omega
  have vR := SetBytes_eq (List.replicate (32 - (bigBytes sig.R).length) 0 ++ bigBytes sig.R)
  have vS := SetBytes_eq (List.replicate (33 - (bigBytes sig.S).length) 0 ++ bigBytes sig.S)
  rw [SetBytes_pad, SetBytes_bigBytes] at vR vS
  rw [hlen, h0, h1, h2, byteOfInt_val, eR, eS, ← vR, ← vS]
  refine ⟨rfl, rfl, ?_, ?_, ?_, ?_, ?_, ?_⟩
  · rw [List.map_append, bigBytes_val, ← bigBytes_length]; simp
  · rw [List.map_append, bigBytes_val, ← bigBytes_length]; simp
  · simp; omega
  · simp; omega
  · omega
  · omega

theorem SerializeSignature_layout_witness :
    ∃ bs, SerializeSignature ⟨27, 1, 2⟩ = some (Except.ok bs) ∧ bs.length = 66
      ∧ ((bs.getD 0 0).val : Int) = (27 : Int) % 256
      ∧ ((bs.drop 1).take 32).map Fin.val
          = List.replicate (32 - (Nat.digits 256 (1 : Int).toNat).length) 0
              ++ (Nat.digits 256 (1 : Int).toNat).reverse
      ∧ ((bs.drop 33).take 33).map Fin.val
          = List.replicate (33 - (Nat.digits 256 (2 : Int).toNat).length) 0
              ++ (Nat.digits 256 (2 : Int).toNat).reverse
      ∧ ((bs.drop 1).take 32).length = 32 ∧ ((bs.drop 33).take 33).length = 33
      ∧ ((Nat.ofDigits 256 (((bs.drop 1).take 32).map Fin.val).reverse : Nat) : Int) = 1
      ∧ ((Nat.ofDigits 256 (((bs.drop 33).take 33).map Fin.val).reverse : Nat) : Int) = 2 :=
  SerializeSignature_layout ⟨27, 1, 2⟩ (by norm_num) (by norm_num)

set_option maxRecDepth 100000 in
/-- C9 does not hold of the code: `SerializeSignature` has no error return and
no test of the sizes of `R` and `S`. It returns an error for no signature.
With `R = 2 ^ 256`, which needs 33 bytes, it returns a buffer in which the
top byte of `R` has taken the place of `V`, and `DeserializeSignature` reads
`(1, 0, 2)` back for `(27, 2 ^ 256, 2)`; with `S = 2 ^ 256` it returns a
buffer as well; with `R = 2 ^ 264`, which needs 34 bytes, it stops in a
slice-bounds panic and returns nothing. -/
theorem SerializeSignature_oversize_unguarded :
    (∀ (sig : Signature) (e : Error), SerializeSignature sig ≠ some (Except.error e))
    ∧ 32 < (bigBytes (2 ^ 256)).length
    ∧ SerializeSignature ⟨27, 2 ^ 256, 2⟩
        = some (Except.ok ([1] ++ List.replicate 32 0 ++ List.replicate 32 0 ++ [2]))
    ∧ DeserializeSignature ([1] ++ List.replicate 32 0 ++ List.replicate 32 0 ++ [2])
        = Except.ok ⟨1, 0, 2⟩
    ∧ SerializeSignature ⟨27, 1, 2 ^ 256⟩
        = some (Except.ok ([27] ++ List.replicate 31 0 ++ [1] ++ [1] ++ List.replicate 32 0))
    ∧ 33 < (bigBytes (2 ^ 264)).length
    ∧ SerializeSignature ⟨27, 2 ^ 264, 2⟩ = none := by
  refine ⟨?_, by decide, by decide, by decide, by decide, by decide, by decide⟩
  intro sig e h
  rcases SerializeSignature_cases sig with ⟨_, _, bs, hbs, _⟩ | ⟨_, hnone⟩
  · rw [hbs] at h; cases h
  · rw [hnone] at h; cases h

/-- C18: on every 66-byte buffer `DeserializeSignature` succeeds and
`SerializeSignature` of its result returns the buffer itself, no error and no
panic: the zeros dropped in front of `R` and `S` come back with the
right-aligned copies into the 32-byte and the 33-byte field. -/
theorem serialize_deserialize (b : List Byte) (hb : b.length = 66) :
    ∃ sig, DeserializeSignature b = Except.ok sig
      ∧ SerializeSignature sig = some (Except.ok b) := by
  cases b with
  | nil => simp at hb
  | cons v t =>
    have ht : t.length = 65 := by simpa using hb
    have hX : (t.take 32).length = 32 := by simp [ht]
    have hY : (t.drop 32).length = 33 := by simp [ht]
    have hb2 : v :: t = [v] ++ t.take 32 ++ t.drop 32 := by
      simp [List.take_append_drop]
    obtain ⟨_, h0, h1, h2⟩ := frame_slices v (t.take 32) (t.drop 32) hX hY
    rw [← hb2] at h0 h1 h2
    have hd : DeserializeSignature (v :: t)
        = Except.ok ⟨(v.val : Int), SetBytes (t.take 32), SetBytes (t.drop 32)⟩ := by
      unfold DeserializeSignature
      rw [if_neg (by rw [hb]; simp), h0, h1, h2]
    refine ⟨_, hd, ?_⟩
    obtain ⟨lr, pr⟩ := bigBytes_SetBytes_pad (t.take 32)
    obtain ⟨ls, ps⟩ := bigBytes_SetBytes_pad (t.drop 32)
    rw [hX] at lr pr
    rw [hY] at ls ps
    rw [SerializeSignature_fits _ lr ls]
    simp only []
    rw [List.append_assoc [byteOfInt (v.val : Int)], pr, ps, byteOfInt_cast, ← hb2]

theorem serialize_deserialize_witness :
    ∃ sig, DeserializeSignature (List.replicate 66 7) = Except.ok sig
      ∧ SerializeSignature sig = some (Except.ok (List.replicate 66 7)) :=
  serialize_deserialize (List.replicate 66 7) (by decide)

/-! ## The share codec -/

/-- C10: if the message codec encodes the message as `e`, `EncodeKeyshare`
returns `role.String() ++ ":" ++ e`; it fails exactly when the message codec
fails, and then with the codec's error. -/
theorem EncodeKeyshare_spec {Msg : Type} (enc : Msg → Except Error GoString)
    (msg : Msg) (role : Role) :
    (∀ e, enc msg = Except.ok e →
        EncodeKeyshare enc msg role = Except.ok (role.String ++ ":".toList ++ e))
    ∧ (∀ err, EncodeKeyshare enc msg role = Except.error err ↔ enc msg = Except.error err) := by
  unfold EncodeKeyshare
  constructor
  · intro e he
    rw [he]
    rfl
  · intro err
    cases h : enc msg with
    | error e' => simp
    | ok e => simp

theorem EncodeKeyshare_spec_witness :
    EncodeKeyshare (fun _ : Unit => (Except.ok "QUJD".toList : Except Error GoString)) ()
        RoleUser = Except.ok "user:QUJD".toList
    ∧ EncodeKeyshare (fun _ : Unit => (Except.error (Error.other 7) : Except Error GoString)) ()
        RoleUser = Except.error (Error.other 7) :=
  ⟨(EncodeKeyshare_spec (fun _ : Unit => (Except.ok "QUJD".toList : Except Error GoString)) ()
      RoleUser).1 "QUJD".toList rfl,
   ((EncodeKeyshare_spec (fun _ : Unit => (Except.error (Error.other 7) : Except Error GoString))
      () RoleUser).2 (Error.other 7)).2 rfl⟩

/-- C6: when both encodings succeed, `NewKeyshareArray` returns exactly two
shares, the validator's first: element 0 is `"validator:" ++ enc val` with
role `validator`, element 1 is `"user:" ++ enc user` with role `user`. -/
theorem NewKeyshareArray_order {Msg : Type} (enc : Msg → Except Error GoString)
    (val user : Msg) (ev eu : GoString)
    (hv : enc val = Except.ok ev) (hu : enc user = Except.ok eu) :
    NewKeyshareArray enc val user
        = Except.ok ["validator:".toList ++ ev, "user:".toList ++ eu]
      ∧ Share.Role ("validator:".toList ++ ev) = some RoleValidator
      ∧ Share.Role ("user:".toList ++ eu) = some RoleUser := by
  refine ⟨?_, ?_, ?_⟩
  · unfold NewKeyshareArray EncodeKeyshare
    rw [hv, hu]
    rfl
  · have h := Split_head RoleValidator ev ':' (by decide)
    unfold Share.Role
    have e : "validator:".toList ++ ev = RoleValidator ++ ':' :: ev := rfl
    rw [e, h]
    simp
  · have h := Split_head RoleUser eu ':' (by decide)
    unfold Share.Role
    have e : "user:".toList ++ eu = RoleUser ++ ':' :: eu := rfl
    rw [e, h]
    simp

theorem NewKeyshareArray_order_witness :
    NewKeyshareArray (fun b : Bool => (Except.ok (if b then "QQ".toList else "Qg".toList) :
        Except Error GoString)) true false
        = Except.ok ["validator:".toList ++ "QQ".toList, "user:".toList ++ "Qg".toList]
      ∧ Share.Role ("validator:".toList ++ "QQ".toList) = some RoleValidator
      ∧ Share.Role ("user:".toList ++ "Qg".toList) = some RoleUser :=
  NewKeyshareArray_order (fun b : Bool => (Except.ok (if b then "QQ".toList else "Qg".toList) :
    Except Error GoString)) true false "QQ".toList "Qg".toList rfl rfl

/-- C2 does not hold of the code: whatever the message codec and the role,
`DecodeKeyshare` turns the text of `EncodeKeyshare` down with the
malformed-keyshare error, because `ExtractRole` splits the role part a second
time and finds one piece. -/
theorem DecodeKeyshare_of_EncodeKeyshare {Msg : Type} (enc : Msg → Except Error GoString)
    (dec : GoString → Except Error Msg) (msg : Msg) (role : Role) (share : Share) :
    EncodeKeyshare enc msg role = Except.ok share →
      DecodeKeyshare dec share = Except.error Error.malformedKeyshare ∧
        ¬ ∃ k, DecodeKeyshare dec share = Except.ok k := by
  intro _
  have hd := DecodeKeyshare_rejects dec share
  refine ⟨hd, ?_⟩
  rintro ⟨k, hk⟩
  rw [hd] at hk
  cases hk

theorem DecodeKeyshare_of_EncodeKeyshare_witness :
    EncodeKeyshare (fun _ : Unit => (Except.ok "QUJD".toList : Except Error GoString)) ()
        RoleValidator = Except.ok "validator:QUJD".toList
    ∧ DecodeKeyshare (fun _ => (Except.ok () : Except Error Unit)) "validator:QUJD".toList
        = Except.error Error.malformedKeyshare
    ∧ ¬ ∃ k, DecodeKeyshare (fun _ => (Except.ok () : Except Error Unit))
        "validator:QUJD".toList = Except.ok k :=
  ⟨rfl, DecodeKeyshare_of_EncodeKeyshare
    (fun _ : Unit => (Except.ok "QUJD".toList : Except Error GoString))
    (fun _ => (Except.ok () : Except Error Unit)) () RoleValidator "validator:QUJD".toList rfl⟩


/-- C11 does not hold of the code: for a text `role:payload` with one
separator, a recognized role and a payload the message codec rejects with
`e`, `DecodeKeyshare` returns the malformed-keyshare error of `ExtractRole`
and never reaches the codec, so `e` is not what comes back. -/
theorem DecodeKeyshare_bad_payload {Msg : Type} (dec : GoString → Except Error Msg)
    (role payload : GoString) (e : Error)
    (hrole : role = RoleValidator ∨ role = RoleUser) (hp : ':' ∉ payload)
    (hdec : dec payload = Except.error e) :
    Split (role ++ ":".toList ++ payload) ':' = [role, payload]
      ∧ dec ((Split (role ++ ":".toList ++ payload) ':').getD 1 []) = Except.error e
      ∧ DecodeKeyshare dec (role ++ ":".toList ++ payload)
          = Except.error Error.malformedKeyshare
      ∧ (e ≠ Error.malformedKeyshare →
          DecodeKeyshare dec (role ++ ":".toList ++ payload) ≠ Except.error e) := by
  have hr : ':' ∉ role := by
    rcases hrole with h | h <;> subst h <;> decide
  have hsplit : Split (role ++ ":".toList ++ payload) ':' = [role, payload] := by
    have e1 : role ++ ":".toList ++ payload = role ++ ':' :: payload := by simp
    rw [e1]
    exact Split_two role payload ':' hr hp
  have hd := DecodeKeyshare_rejects dec (role ++ ":".toList ++ payload)
  refine ⟨hsplit, ?_, hd, ?_⟩
  · rw [hsplit]
    simpa using hdec
  · intro hne h
    rw [hd] at h
    exact hne (Except.error.inj h).symm

theorem DecodeKeyshare_bad_payload_witness :
    Split "validator:not-base64!!".toList ':' = ["validator".toList, "not-base64!!".toList]
      ∧ DecodeKeyshare (fun _ => (Except.error (Error.other 3) : Except Error Unit))
          "validator:not-base64!!".toList = Except.error Error.malformedKeyshare
      ∧ DecodeKeyshare (fun _ => (Except.error (Error.other 3) : Except Error Unit))
          "validator:not-base64!!".toList ≠ Except.error (Error.other 3) := by
  obtain ⟨a, _, c, d⟩ := DecodeKeyshare_bad_payload
    (fun _ => (Except.error (Error.other 3) : Except Error Unit))
    RoleValidator "not-base64!!".toList (Error.other 3) (Or.inl rfl) (by decide) rfl
  exact ⟨a, c, d (by decide)⟩

/-- C12: a text whose number of `:` is not exactly one is turned down by
`DecodeKeyshare` with the malformed-keyshare error, whatever the message
decoder is, and whatever role check is put in the place of `ExtractRole`:
neither is consulted. -/
theorem DecodeKeyshare_separator_count (s : GoString) (h : s.count ':' ≠ 1) :
    (∀ (Msg : Type) (dec : GoString → Except Error Msg),
        DecodeKeyshare dec s = Except.error Error.malformedKeyshare)
    ∧ (∀ (Msg : Type) (dec : GoString → Except Error Msg),
        DecodeKeyshare dec s = DecodeKeyshareVia ExtractRole dec s)
    ∧ (∀ (Msg : Type) (extractRole : GoString → Except Error Role)
        (dec : GoString → Except Error Msg),
        DecodeKeyshareVia extractRole dec s = Except.error Error.malformedKeyshare) := by
  have hlen : (Split s ':').length ≠ 2 := by
    rw [Split_length]
    omega
  refine ⟨?_, ?_, ?_⟩
  · intro Msg dec
    unfold DecodeKeyshare
    dsimp only
    rw [if_pos hlen]
  · intro Msg dec
    rfl
  · intro Msg extractRole dec
    unfold DecodeKeyshareVia
    dsimp only
    rw [if_pos hlen]

theorem DecodeKeyshare_separator_count_witness :
    DecodeKeyshare (fun _ => (Except.ok () : Except Error Unit)) "garbage".toList
        = Except.error Error.malformedKeyshare
    ∧ DecodeKeyshareVia (fun _ => Except.ok RoleUser)
        (fun _ => (Except.ok () : Except Error Unit)) "garbage".toList
        = Except.error Error.malformedKeyshare :=
  ⟨(DecodeKeyshare_separator_count "garbage".toList (by decide)).1 Unit _,
   (DecodeKeyshare_separator_count "garbage".toList (by decide)).2.2 Unit _ _⟩

/-- C13 fails as stated: `ExtractRole` turns the bare tags `validator` and
`user` down, and a bare unknown tag gets the malformed-keyshare error, not
`ErrInvalidKeyshareRole`. -/
theorem ExtractRole_bare_tag_counterexample :
    ExtractRole "validator".toList = Except.error Error.malformedKeyshare
    ∧ ExtractRole "user".toList = Except.error Error.malformedKeyshare
    ∧ ExtractRole RoleValidator.String ≠ Except.ok RoleValidator
    ∧ ExtractRole "admin".toList = Except.error Error.malformedKeyshare
    ∧ ExtractRole "admin".toList ≠ Except.error ErrInvalidKeyshareRole := by
  decide

/-- C13, as the code has it: `ExtractRole` reads the role off a text with
exactly one separator. On `validator:p` and `user:p` it returns the role; on
`t:p` with any other tag `t` it fails with `ErrInvalidKeyshareRole`; on a text
whose number of separators is not one, the bare tags included, it fails with
the malformed-keyshare error. -/
theorem ExtractRole_spec :
    (∀ p : GoString, ':' ∉ p →
        ExtractRole (RoleValidator.String ++ ":".toList ++ p) = Except.ok RoleValidator
        ∧ ExtractRole (RoleUser.String ++ ":".toList ++ p) = Except.ok RoleUser)
    ∧ (∀ t p : GoString, ':' ∉ t → ':' ∉ p → t ≠ RoleValidator → t ≠ RoleUser →
        ExtractRole (t ++ ":".toList ++ p) = Except.error ErrInvalidKeyshareRole)
    ∧ (∀ s : GoString, s.count ':' ≠ 1 →
        ExtractRole s = Except.error Error.malformedKeyshare) := by
  have key : ∀ t p : GoString, ':' ∉ t → ':' ∉ p →
      ExtractRole (t ++ ":".toList ++ p)
        = if (Role.IsBob t || Role.IsAlice t) = true then Except.ok t
          else Except.error ErrInvalidKeyshareRole := by
    intro t p ht hp
    have e1 : t ++ ":".toList ++ p = t ++ ':' :: p := by simp
    unfold ExtractRole
    rw [e1, Split_two t p ':' ht hp]
    rfl
  refine ⟨?_, ?_, ?_⟩
  · intro p hp
    exact ⟨by rw [Role.String, key _ p (by decide) hp]; rfl,
      by rw [Role.String, key _ p (by decide) hp]; rfl⟩
  · intro t p ht hp hv hu
    rw [key t p ht hp]
    simp [Role.IsBob, Role.IsAlice, hv, hu]
  · intro s hs
    have hlen : (Split s ':').length ≠ 2 := by
      rw [Split_length]
      omega
    unfold ExtractRole
    dsimp only
    rw [if_pos hlen]

theorem ExtractRole_spec_witness :
    ExtractRole "validator:QUJD".toList = Except.ok RoleValidator
    ∧ ExtractRole "user:QUJD".toList = Except.ok RoleUser
    ∧ ExtractRole "admin:QUJD".toList = Except.error ErrInvalidKeyshareRole
    ∧ ExtractRole "a:b:c".toList = Except.error Error.malformedKeyshare :=
  ⟨(ExtractRole_spec.1 "QUJD".toList (by decide)).1,
   (ExtractRole_spec.1 "QUJD".toList (by decide)).2,
   ExtractRole_spec.2.1 "admin".toList "QUJD".toList (by decide) (by decide) (by decide)
     (by decide),
   ExtractRole_spec.2.2 "a:b:c".toList (by decide)⟩

/-- C14 does not hold of the code: `Share.Message` panics on the index
`ptrs[1]` exactly for the shares that hold no separator, `garbage` among
them, whatever the message decoder is. -/
theorem Share_Message_panics :
    (∀ (Msg : Type) (dec : GoString → Except Error Msg) (k : Share),
        Share.Message dec k = none ↔ ':' ∉ k)
    ∧ (∀ (Msg : Type) (dec : GoString → Except Error Msg),
        Share.Message dec "garbage".toList = none) := by
  have key : ∀ (Msg : Type) (dec : GoString → Except Error Msg) (k : Share),
      Share.Message dec k = none ↔ ':' ∉ k := by
    intro Msg dec k
    unfold Share.Message
    constructor
    · intro h hmem
      have hc : 0 < k.count ':' := List.count_pos_iff.2 hmem
      have hl := Split_length k ':'
      cases hsp : (Split k ':')[1]? with
      | none =>
        have := List.getElem?_eq_none_iff.1 hsp
        omega
      | some q =>
        rw [hsp] at h
        cases h
    · intro hmem
      rw [Split_of_not_mem k ':' hmem]
      rfl
  exact ⟨key, fun Msg dec => (key Msg dec _).2 (by decide)⟩

/-- C17: `DecodeKeyshare` returns an error on every input. The role part it
passes on holds no separator, `ExtractRole` turns down every text that does
not split into exactly two parts, and so the error is always the
malformed-keyshare one. -/
theorem DecodeKeyshare_never_accepts :
    (∀ (Msg : Type) (dec : GoString → Except Error Msg) (s : GoString),
        (∃ e, DecodeKeyshare dec s = Except.error e)
        ∧ ¬ (∃ k, DecodeKeyshare dec s = Except.ok k)
        ∧ DecodeKeyshare dec s = Except.error Error.malformedKeyshare)
    ∧ (∀ s : GoString, ':' ∉ (Split s ':').getD 0 [])
    ∧ (∀ t : GoString, (Split t ':').length ≠ 2 → ∃ e, ExtractRole t = Except.error e)
    ∧ (∀ t : GoString, ':' ∉ t → (Split t ':').length ≠ 2) := by
  refine ⟨?_, ?_, ?_, ?_⟩
  · intro Msg dec s
    have hd := DecodeKeyshare_rejects dec s
    refine ⟨⟨_, hd⟩, ?_, hd⟩
    rintro ⟨k, hk⟩
    rw [hd] at hk
    cases hk
  · intro s
    cases hsp : Split s ':' with
    | nil => simp
    | cons q qs =>
      have := Split_pieces s ':' q (by simp [hsp])
      simpa using this
  · intro t ht
    refine ⟨Error.malformedKeyshare, ?_⟩
    unfold ExtractRole
    dsimp only
    rw [if_pos ht]
  · intro t ht
    rw [Split_of_not_mem t ':' ht]
    simp

/-! ## Public keys and verification -/

theorem GetRawPublicKey_eq {Msg A B : Type} (D : Dkg Msg A B) (ks : Share) :
    GetRawPublicKey D ks = Share.PublicKey D ks := by
  unfold GetRawPublicKey Share.PublicKey Share.Message
  cases (Split ks ':')[1]? with
  | none => rfl
  | some p =>
    dsimp only
    cases D.DecodeMessage p with
    | error err => rfl
    | ok msg =>
      dsimp only
      cases Share.Role ks with
      | none => rfl
      | some r =>
        dsimp only
        have huv : ¬ RoleUser = RoleValidator := by decide
        have hvu : ¬ RoleValidator = RoleUser := by decide
        by_cases hu : r = RoleUser
        · subst hu
          simp [Role.IsBob, Role.IsAlice, huv]
        · by_cases hv : r = RoleValidator
          · subst hv
            simp [Role.IsBob, Role.IsAlice, hvu]
          · simp [Role.IsBob, Role.IsAlice, hu, hv]

theorem PublicKey_eq_spec {Msg A B : Type} (D : Dkg Msg A B) (ks : Share) :
    Share.PublicKey D ks = publicKeySpec D ks := by
  unfold publicKeySpec Share.PublicKey Share.Message
  cases (Split ks ':')[1]? with
  | none => rfl
  | some p =>
    dsimp only
    cases D.DecodeMessage p with
    | error err => rfl
    | ok msg =>
      dsimp only
      cases Share.Role ks with
      | none => rfl
      | some r =>
        dsimp only
        by_cases hv : r = RoleValidator
        · simp only [Role.IsAlice, hv, decide_True, if_true]
          cases D.DecodeAliceDkgResult msg <;> rfl
        · by_cases hu : r = RoleUser
          · simp only [Role.IsAlice, Role.IsBob, hv, hu, decide_False, decide_True, if_true,
              if_false, Bool.false_eq_true]
            cases D.DecodeBobDkgResult msg <;> rfl
          · simp [Role.IsBob, Role.IsAlice, hu, hv]

/-- The curve point of a key of at least 33 bytes, once the curve is there. -/
theorem ComputeEcPoint_ok {C : Type} (toCurve : Except Error C) (curve : C)
    (hc : toCurve = Except.ok curve) (b : List Byte) (hb : 33 ≤ b.length) :
    ComputeEcPoint toCurve b = some (Except.ok
      { X := SetBytes ((b.drop 1).take 32), Y := SetBytes (b.drop 33), Curve := curve }) := by
  unfold ComputeEcPoint
  rw [if_neg (by omega), hc]

/-- C15: on a 65-byte input, with the curve materialized, `ComputeEcPoint`
succeeds with `X` the big-endian unsigned value of `bytes[1:33]`, `Y` that of
`bytes[33:65]`, and the fixed curve; two 65-byte inputs that agree from byte 1
on give the same point, so byte 0 plays no part. -/
theorem ComputeEcPoint_spec {C : Type} (toCurve : Except Error C) (curve : C)
    (hc : toCurve = Except.ok curve) (b : List Byte) (hb : b.length = 65) :
    ComputeEcPoint toCurve b = some (Except.ok
        { X := ((Nat.ofDigits 256 (((b.drop 1).take 32).map Fin.val).reverse : Nat) : Int)
          Y := ((Nat.ofDigits 256 (((b.drop 33).take 32).map Fin.val).reverse : Nat) : Int)
          Curve := curve })
      ∧ (∀ b' : List Byte, b'.length = 65 → b'.drop 1 = b.drop 1 →
          ComputeEcPoint toCurve b' = ComputeEcPoint toCurve b)
      ∧ (∀ v : Byte, ComputeEcPoint toCurve (b.set 0 v) = ComputeEcPoint toCurve b) := by
  have hdrop : ∀ b' : List Byte, b'.length = 65 → b'.drop 1 = b.drop 1 →
      ComputeEcPoint toCurve b' = ComputeEcPoint toCurve b := by
    intro b' hb' hd
    rw [ComputeEcPoint_ok toCurve curve hc b (by omega),
      ComputeEcPoint_ok toCurve curve hc b' (by omega), hd]
    have e33 : ∀ l : List Byte, l.drop 33 = (l.drop 1).drop 32 := by
      intro l; rw [List.drop_drop]
    rw [e33 b', e33 b, hd]
  refine ⟨?_, hdrop, ?_⟩
  · rw [ComputeEcPoint_ok toCurve curve hc b (by omega), SetBytes_eq, SetBytes_eq]
    have e : (b.drop 33).take 32 = b.drop 33 :=
      List.take_of_length_le (by simp [hb])
    rw [e]
  · intro v
    apply hdrop
    · simp [hb]
    · cases b with
      | nil => simp at hb
      | cons a t => simp

theorem ComputeEcPoint_spec_witness :
    ComputeEcPoint (Except.ok () : Except Error Unit) ([4] ++ List.replicate 31 0 ++ [1]
        ++ List.replicate 31 0 ++ [2])
      = some (Except.ok { X := 1, Y := 2, Curve := () })
    ∧ ComputeEcPoint (Except.ok () : Except Error Unit) ([9] ++ List.replicate 31 0 ++ [1]
        ++ List.replicate 31 0 ++ [2])
      = some (Except.ok { X := 1, Y := 2, Curve := () }) := by
  obtain ⟨h1, h2, _⟩ := ComputeEcPoint_spec (Except.ok () : Except Error Unit) () rfl
    ([4] ++ List.replicate 31 0 ++ [1] ++ List.replicate 31 0 ++ [2]) (by decide)
  have h3 := h2 ([9] ++ List.replicate 31 0 ++ [1] ++ List.replicate 31 0 ++ [2]) (by decide)
    (by decide)
  have hv : ComputeEcPoint (Except.ok () : Except Error Unit) ([4] ++ List.replicate 31 0 ++ [1]
      ++ List.replicate 31 0 ++ [2]) = some (Except.ok { X := 1, Y := 2, Curve := () }) := by
    rw [h1]
    rfl
  exact ⟨hv, h3.trans hv⟩

/-- C16: for a share whose public key is extracted as 65 bytes, with the
curve materialized and a hash whose `Write` reports no error (the contract of
`hash.Hash`), `VerifySignature` returns an error exactly when the signature
is not 66 bytes long, and then the malformed-signature one; on a 66-byte
signature it returns a nil error with the boolean of `VerifyEcdsa` on the
point of the key, the digest of the message and the deserialized signature,
`false` included. -/
theorem VerifySignature_spec {Msg A B C : Type} (D : Dkg Msg A B) (toCurve : Except Error C)
    (hashWrite : List Byte → Option Error) (hashSum : List Byte → List Byte)
    (VerifyEcdsa : EcPoint C → List Byte → Signature → Bool)
    (ks : Share) (pk : List Byte) (curve : C) (msg sig : List Byte)
    (hpk : Share.PublicKey D ks = some (Except.ok pk)) (hlen : pk.length = 65)
    (hc : toCurve = Except.ok curve) (hw : hashWrite msg = none) :
    ∃ pp, ComputeEcPoint toCurve pk = some (Except.ok pp)
      ∧ ((∃ r e, VerifySignature D toCurve hashWrite hashSum VerifyEcdsa ks msg sig
            = some (r, some e)) ↔ sig.length ≠ 66)
      ∧ (sig.length ≠ 66 →
          VerifySignature D toCurve hashWrite hashSum VerifyEcdsa ks msg sig
            = some (false, some Error.malformedSignature))
      ∧ (sig.length = 66 →
          ∃ sigEd, DeserializeSignature sig = Except.ok sigEd
            ∧ VerifySignature D toCurve hashWrite hashSum VerifyEcdsa ks msg sig
                = some (VerifyEcdsa pp (hashSum msg) sigEd, none)
            ∧ (VerifyEcdsa pp (hashSum msg) sigEd = false →
                VerifySignature D toCurve hashWrite hashSum VerifyEcdsa ks msg sig
                  = some (false, none))) := by
  obtain ⟨pp, hpp⟩ : ∃ pp, ComputeEcPoint toCurve pk = some (Except.ok pp) :=
    ⟨_, ComputeEcPoint_ok toCurve curve hc pk (by omega)⟩
  refine ⟨pp, hpp, ?_⟩
  have hbad : sig.length ≠ 66 →
      VerifySignature D toCurve hashWrite hashSum VerifyEcdsa ks msg sig
        = some (false, some Error.malformedSignature) := by
    intro h
    unfold VerifySignature
    rw [hpk]
    dsimp only
    rw [hpp]
    dsimp only
    unfold DeserializeSignature
    rw [if_pos h]
  have hgood : sig.length = 66 →
      ∃ sigEd, DeserializeSignature sig = Except.ok sigEd
        ∧ VerifySignature D toCurve hashWrite hashSum VerifyEcdsa ks msg sig
            = some (VerifyEcdsa pp (hashSum msg) sigEd, none) := by
    intro h
    have hd : DeserializeSignature sig = Except.ok
        { V := ((sig.getD 0 0).val : Int)
          R := SetBytes ((sig.drop 1).take 32)
          S := SetBytes ((sig.drop 33).take 33) } := by
      unfold DeserializeSignature
      rw [if_neg (by simp [h])]
    refine ⟨_, hd, ?_⟩
    unfold VerifySignature
    rw [hpk]
    dsimp only
    rw [hpp]
    dsimp only
    rw [hd]
    dsimp only
    rw [hw]
  refine ⟨?_, hbad, ?_⟩
  · constructor
    · rintro ⟨r, e, h⟩ h66
      obtain ⟨sigEd, _, hv⟩ := hgood h66
      rw [hv] at h
      cases h
    · intro h
      exact ⟨false, Error.malformedSignature, hbad h⟩
  · intro h66
    obtain ⟨sigEd, hd, hv⟩ := hgood h66
    refine ⟨sigEd, hd, hv, ?_⟩
    intro hf
    rw [hv, hf]

theorem VerifySignature_spec_witness :
    VerifySignature (constantDkg (List.replicate 65 1)) (Except.ok () : Except Error Unit)
        (fun _ => none) (fun m => m) (fun _ _ _ => false) "user:QUJD".toList [] (List.replicate 66 0)
      = some (false, none)
    ∧ VerifySignature (constantDkg (List.replicate 65 1)) (Except.ok () : Except Error Unit)
        (fun _ => none) (fun m => m) (fun _ _ _ => false) "user:QUJD".toList [] (List.replicate 65 0)
      = some (false, some Error.malformedSignature) := by
  constructor
  · obtain ⟨pp, _, _, _, h⟩ := VerifySignature_spec (constantDkg (List.replicate 65 1))
      (Except.ok () : Except Error Unit) (fun _ => none) (fun m => m) (fun _ _ _ => false)
      "user:QUJD".toList (List.replicate 65 1) () [] (List.replicate 66 0)
      (by decide) (by decide) rfl rfl
    obtain ⟨sigEd, _, _, hf⟩ := h (by decide)
    exact hf rfl
  · obtain ⟨pp, _, _, h, _⟩ := VerifySignature_spec (constantDkg (List.replicate 65 1))
      (Except.ok () : Except Error Unit) (fun _ => none) (fun m => m) (fun _ _ _ => false)
      "user:QUJD".toList (List.replicate 65 1) () [] (List.replicate 65 0)
      (by decide) (by decide) rfl rfl
    exact h (by decide)

/-- C20: `GetRawPublicKey` and `Share.PublicKey` agree on every share, the
decoders being the same: both are the specification's extraction, with the
payload-decode error first, then the result of the DKG decoder of the share's
role, and `ErrInvalidKeyshareRole` when the payload decodes and the role is
neither `validator` nor `user`. -/
theorem GetRawPublicKey_equiv {Msg A B : Type} (D : Dkg Msg A B) (ks : Share) :
    GetRawPublicKey D ks = Share.PublicKey D ks
      ∧ Share.PublicKey D ks = publicKeySpec D ks
      ∧ (∀ err, Share.Message D.DecodeMessage ks = some (Except.error err) →
          GetRawPublicKey D ks = some (Except.error err)
          ∧ Share.PublicKey D ks = some (Except.error err))
      ∧ (∀ msg, Share.Message D.DecodeMessage ks = some (Except.ok msg) →
          (Share.Role ks = some RoleValidator →
            GetRawPublicKey D ks = some ((D.DecodeAliceDkgResult msg).map D.alicePublicKey)
            ∧ Share.PublicKey D ks = some ((D.DecodeAliceDkgResult msg).map D.alicePublicKey))
          ∧ (Share.Role ks = some RoleUser →
            GetRawPublicKey D ks = some ((D.DecodeBobDkgResult msg).map D.bobPublicKey)
            ∧ Share.PublicKey D ks = some ((D.DecodeBobDkgResult msg).map D.bobPublicKey))
          ∧ (∀ r, Share.Role ks = some r → r ≠ RoleValidator → r ≠ RoleUser →
            GetRawPublicKey D ks = some (Except.error ErrInvalidKeyshareRole)
            ∧ Share.PublicKey D ks = some (Except.error ErrInvalidKeyshareRole))) := by
  have h1 := GetRawPublicKey_eq D ks
  have h2 := PublicKey_eq_spec D ks
  refine ⟨h1, h2, ?_, ?_⟩
  · intro err hm
    rw [h1, h2]
    unfold publicKeySpec
    rw [hm]
    exact ⟨rfl, rfl⟩
  · intro msg hm
    rw [h1, h2]
    refine ⟨?_, ?_, ?_⟩
    · intro hr
      unfold publicKeySpec
      rw [hm, hr]
      exact ⟨rfl, rfl⟩
    · intro hr
      unfold publicKeySpec
      rw [hm, hr]
      exact ⟨rfl, rfl⟩
    · intro r hr hv hu
      unfold publicKeySpec
      rw [hm, hr]
      simp [hv, hu]

/-! ## The protocol driver -/

/-- C3: if both participants return no error in rounds `1 .. N - 1` and both
return `ErrProtocolFinished` in round `N ≥ 1`, `RunProtocol` terminates (any
fuel above `N` is enough) with `(ErrProtocolFinished, ErrProtocolFinished)`
after `2 N` calls, `N` to each participant, alternating first, second; the
first call is handed `nil`, each second-party call is handed what the first
party returned in the same round, and each later first-party call what the
second party returned in the round before. -/
theorem RunProtocol_finishes {σ₁ σ₂ M : Type} (P : Iterator σ₁ M) (Q : Iterator σ₂ M)
    (s1 : σ₁) (s2 : σ₂) (N : Nat) (hN : 1 ≤ N)
    (hnil : ∀ k, k + 1 < N →
      (firstReply P Q s1 s2 k).2.2 = none ∧ (secondReply P Q s1 s2 k).2.2 = none)
    (hfin : (firstReply P Q s1 s2 (N - 1)).2.2 = some ErrProtocolFinished
      ∧ (secondReply P Q s1 s2 (N - 1)).2.2 = some ErrProtocolFinished)
    (fuel : Nat) (hfuel : N < fuel) :
    ∃ r, RunProtocol fuel P Q s1 s2 = some r
      ∧ r.aErr = some ErrProtocolFinished ∧ r.bErr = some ErrProtocolFinished
      ∧ r.calls = callsUpto P Q s1 s2 N
      ∧ r.calls.length = 2 * N
      ∧ r.calls.countP (fun c => decide (c.party = Party.first)) = N
      ∧ r.calls.countP (fun c => decide (c.party = Party.second)) = N
      ∧ (∀ c, r.calls[0]? = some c → c.input = none)
      ∧ (∀ k, k < N → ∃ c1 c2, r.calls[2 * k]? = some c1 ∧ r.calls[2 * k + 1]? = some c2
          ∧ c1.party = Party.first ∧ c2.party = Party.second
          ∧ c1.output = (firstReply P Q s1 s2 k).2.1
          ∧ c2.output = (secondReply P Q s1 s2 k).2.1
          ∧ c2.input = c1.output
          ∧ ∀ c3, r.calls[2 * k + 2]? = some c3 → c3.input = c2.output) := by
  obtain ⟨n, rfl⟩ : ∃ n, N = n + 1 := ⟨N - 1, by omega⟩
  obtain ⟨f, rfl⟩ : ∃ f, fuel = n + (f + 2) := ⟨fuel - n - 2, by omega⟩
  have hprev : ∀ j, j < n → continues P Q s1 s2 j := by
    intro j hj
    obtain ⟨a, b⟩ := hnil j (by omega)
    refine ⟨Or.inl a, Or.inl b, ?_⟩
    rw [a]
    rintro ⟨h, _⟩
    cases h
  have hrun := RunProtocol_finish_at P Q s1 s2 n hprev hfin.1 hfin.2 f
  refine ⟨_, hrun, rfl, rfl, rfl, callsUpto_length P Q s1 s2 (n + 1),
    (callsUpto_count P Q s1 s2 (n + 1)).1, (callsUpto_count P Q s1 s2 (n + 1)).2, ?_, ?_⟩
  · intro c hc
    have h0 := (callsUpto_get P Q s1 s2 (n + 1) 0 (by omega)).1
    simp only [Nat.mul_zero] at h0
    rw [h0] at hc
    cases hc
    rfl
  · intro k hk
    obtain ⟨a, b⟩ := callsUpto_get P Q s1 s2 (n + 1) k hk
    refine ⟨_, _, a, b, rfl, rfl, rfl, rfl, rfl, ?_⟩
    intro c3 hc3
    have hlen := callsUpto_length P Q s1 s2 (n + 1)
    by_cases hk1 : k + 1 < n + 1
    · have h2 := (callsUpto_get P Q s1 s2 (n + 1) (k + 1) hk1).1
      have e : 2 * (k + 1) = 2 * k + 2 := by omega
      rw [e] at h2
      simp only [] at hc3
      rw [h2] at hc3
      cases hc3
      rfl
    · have hnone : (callsUpto P Q s1 s2 (n + 1))[2 * k + 2]? = none :=
        List.getElem?_eq_none (by omega)
      simp only [] at hc3
      rw [hnone] at hc3
      cases hc3

theorem RunProtocol_finishes_witness :
    ∃ r, RunProtocol 3 (counting 2 100) (counting 2 200) 0 0 = some r
      ∧ r.aErr = some ErrProtocolFinished ∧ r.bErr = some ErrProtocolFinished
      ∧ r.calls.length = 4
      ∧ r.calls.map (fun c => (c.party, c.input, c.output))
          = [(Party.first, none, some 100), (Party.second, some 100, some 300),
             (Party.first, some 300, some 400), (Party.second, some 400, some 600)] := by
  obtain ⟨r, h, a, b, c, l, _⟩ := RunProtocol_finishes (counting 2 100) (counting 2 200) 0 0 2
    (by decide) (by intro k hk; have : k = 0 := by omega
                    subst this; exact ⟨rfl, rfl⟩) ⟨rfl, rfl⟩ 3 (by decide)
  refine ⟨r, h, a, b, l, ?_⟩
  rw [c]
  rfl

/-- C4: in a run whose rounds before round `k + 1` all went on, an error `E`
that is neither `nil` nor `ErrProtocolFinished` stops `RunProtocol` in round
`k + 1`. Returned by the first party, the result is `(nil, E)`, the first
party's call is the last one and the second party has been called `k` times,
its state being that of the end of round `k`. Returned by the second party,
the result is `(E, nil)` and the second party's call is the last one. -/
theorem RunProtocol_aborts {σ₁ σ₂ M : Type} (P : Iterator σ₁ M) (Q : Iterator σ₂ M)
    (s1 : σ₁) (s2 : σ₂) (k : Nat) (E : Error) (hE : E ≠ ErrProtocolFinished)
    (hprev : ∀ j, j < k → continues P Q s1 s2 j) (fuel : Nat) (hfuel : k < fuel) :
    ((firstReply P Q s1 s2 k).2.2 = some E →
      ∃ r, RunProtocol fuel P Q s1 s2 = some r ∧ r.aErr = none ∧ r.bErr = some E
        ∧ r.calls = callsUpto P Q s1 s2 k ++ [firstCall P Q s1 s2 k]
        ∧ r.calls.length = 2 * k + 1
        ∧ r.calls.countP (fun c => decide (c.party = Party.second)) = k
        ∧ r.s2 = (roundState P Q s1 s2 k).2.1)
    ∧ (passes (firstReply P Q s1 s2 k).2.2 → (secondReply P Q s1 s2 k).2.2 = some E →
      ∃ r, RunProtocol fuel P Q s1 s2 = some r ∧ r.aErr = some E ∧ r.bErr = none
        ∧ r.calls = callsUpto P Q s1 s2 k ++ [firstCall P Q s1 s2 k, secondCall P Q s1 s2 k]
        ∧ r.calls.length = 2 * k + 2
        ∧ r.s1 = (firstReply P Q s1 s2 k).1 ∧ r.s2 = (secondReply P Q s1 s2 k).1) := by
  obtain ⟨f, rfl⟩ : ∃ f, fuel = k + (f + 1) := ⟨fuel - k - 1, by omega⟩
  constructor
  · intro hf
    have hnp : ¬ passes (firstReply P Q s1 s2 k).2.2 := by
      rw [hf]
      rintro (h | h)
      · cases h
      · exact hE (Option.some.inj h)
    have hrun := RunProtocol_abort_first_at P Q s1 s2 k hprev hnp f
    rw [hf] at hrun
    refine ⟨_, hrun, rfl, rfl, rfl, ?_, ?_, rfl⟩
    · simp [callsUpto_length]
    · simp [List.countP_append, (callsUpto_count P Q s1 s2 k).2, firstCall, List.countP_cons]
  · intro hp hs
    have hnp : ¬ passes (secondReply P Q s1 s2 k).2.2 := by
      rw [hs]
      rintro (h | h)
      · cases h
      · exact hE (Option.some.inj h)
    have hrun := RunProtocol_abort_second_at P Q s1 s2 k hprev hp hnp f
    rw [hs] at hrun
    refine ⟨_, hrun, rfl, rfl, rfl, ?_, rfl, rfl⟩
    simp [callsUpto, callsUpto_length]

theorem RunProtocol_aborts_witness :
    (∃ r, RunProtocol 5 (failingAt 2 (Error.other 7)) (counting 9 0) 0 0 = some r
        ∧ r.aErr = none ∧ r.bErr = some (Error.other 7) ∧ r.calls.length = 3 ∧ r.s2 = 1)
    ∧ (∃ r, RunProtocol 5 (counting 9 0) (failingAt 2 (Error.other 7)) 0 0 = some r
        ∧ r.aErr = some (Error.other 7) ∧ r.bErr = none ∧ r.calls.length = 4) := by
  constructor
  · obtain ⟨r, h, a, b, _, l, _, t⟩ :=
      (RunProtocol_aborts (failingAt 2 (Error.other 7)) (counting 9 0) 0 0 1 (Error.other 7)
        (by decide) (by intro j hj; have : j = 0 := by omega
                        subst this; decide) 5 (by decide)).1 rfl
    exact ⟨r, h, a, b, l, t⟩
  · obtain ⟨r, h, a, b, _, l, _⟩ :=
      (RunProtocol_aborts (counting 9 0) (failingAt 2 (Error.other 7)) 0 0 1 (Error.other 7)
        (by decide) (by intro j hj; have : j = 0 := by omega
                        subst this; decide) 5 (by decide)).2 (by decide) rfl
    exact ⟨r, h, a, b, l⟩

/-- C5 does not hold of the code when it is the first party (the validator)
that fails: `RunProtocol` then returns `(nil, E)`, the flows test the first
component against `ErrProtocolFinished` and return it, and so
`RunSignProtocol` and `RunRefreshProtocol` both return a nil result with a
nil error. When the second party fails, they return `E`. -/
theorem flows_drop_first_party_error {σ₁ σ₂ M : Type} (P : Iterator σ₁ M) (Q : Iterator σ₂ M)
    (s1 : σ₁) (s2 : σ₂) (k : Nat) (E : Error) (hE : E ≠ ErrProtocolFinished)
    (hprev : ∀ j, j < k → continues P Q s1 s2 j) (fuel : Nat) (hfuel : k < fuel)
    (decodeSig : Option M → Option Signature × Option Error)
    (enc : Option M → Except Error GoString) :
    ((firstReply P Q s1 s2 k).2.2 = some E →
      RunSignProtocol fuel decodeSig P Q s1 s2 = some (none, none)
        ∧ RunRefreshProtocol fuel enc P Q s1 s2 = some (none, none))
    ∧ (passes (firstReply P Q s1 s2 k).2.2 → (secondReply P Q s1 s2 k).2.2 = some E →
      RunSignProtocol fuel decodeSig P Q s1 s2 = some (none, some E)
        ∧ RunRefreshProtocol fuel enc P Q s1 s2 = some (none, some E)) := by
  obtain ⟨f, rfl⟩ : ∃ f, fuel = k + (f + 1) := ⟨fuel - k - 1, by omega⟩
  constructor
  · intro hf
    have hnp : ¬ passes (firstReply P Q s1 s2 k).2.2 := by
      rw [hf]
      rintro (h | h)
      · cases h
      · exact hE (Option.some.inj h)
    have hrun := RunProtocol_abort_first_at P Q s1 s2 k hprev hnp f
    unfold RunSignProtocol RunRefreshProtocol
    rw [hrun]
    simp
  · intro hp hs
    have hnp : ¬ passes (secondReply P Q s1 s2 k).2.2 := by
      rw [hs]
      rintro (h | h)
      · cases h
      · exact hE (Option.some.inj h)
    have hrun := RunProtocol_abort_second_at P Q s1 s2 k hprev hp hnp f
    rw [hs] at hrun
    unfold RunSignProtocol RunRefreshProtocol
    rw [hrun]
    simp [hE]

theorem flows_drop_first_party_error_witness :
    RunSignProtocol 1 (fun _ : Option Nat => (none, some (Error.other 1)))
        (failingAt 1 (Error.other 7)) (counting 1 0) 0 0 = some (none, none)
    ∧ RunRefreshProtocol 1 (fun _ : Option Nat => Except.ok [])
        (failingAt 1 (Error.other 7)) (counting 1 0) 0 0 = some (none, none) :=
  (flows_drop_first_party_error (failingAt 1 (Error.other 7)) (counting 1 0) 0 0 0
    (Error.other 7) (by decide) (by intro j hj; omega) 1 (by decide)
    (fun _ : Option Nat => (none, some (Error.other 1)))
    (fun _ : Option Nat => Except.ok [])).1 rfl

/-- C19, with rounds counted from 0: `RunProtocol` returns
`(ErrProtocolFinished, ErrProtocolFinished)` after round `k` exactly when no
call of rounds `0 .. k` returned an error other than `nil` and
`ErrProtocolFinished`, both calls of round `k` returned
`ErrProtocolFinished`, and in no earlier round both did. In such a run every
round up to `k` holds a call to each participant, so one that reported
`ErrProtocolFinished` in a round `j < k` is called again in each later round,
the first party with the second's reply of the round before and the second
party with the first's reply of the same round. -/
theorem RunProtocol_normal_exit {σ₁ σ₂ M : Type} (P : Iterator σ₁ M) (Q : Iterator σ₂ M)
    (s1 : σ₁) (s2 : σ₂) (k : Nat) :
    ((∃ fuel r, RunProtocol fuel P Q s1 s2 = some r
          ∧ r.aErr = some ErrProtocolFinished ∧ r.bErr = some ErrProtocolFinished
          ∧ r.calls.length = 2 * (k + 1))
      ↔ ((∀ j, j ≤ k →
            passes (firstReply P Q s1 s2 j).2.2 ∧ passes (secondReply P Q s1 s2 j).2.2)
          ∧ ((firstReply P Q s1 s2 k).2.2 = some ErrProtocolFinished
            ∧ (secondReply P Q s1 s2 k).2.2 = some ErrProtocolFinished)
          ∧ ∀ j, j < k → ¬ ((firstReply P Q s1 s2 j).2.2 = some ErrProtocolFinished
              ∧ (secondReply P Q s1 s2 j).2.2 = some ErrProtocolFinished)))
    ∧ (∀ fuel r, RunProtocol fuel P Q s1 s2 = some r →
        r.aErr = some ErrProtocolFinished → r.bErr = some ErrProtocolFinished →
        r.calls.length = 2 * (k + 1) →
        ∀ j i, j < i → i ≤ k →
          ((firstReply P Q s1 s2 j).2.2 = some ErrProtocolFinished →
            ∃ c, r.calls[2 * i]? = some c ∧ c.party = Party.first
              ∧ c.input = (secondReply P Q s1 s2 (i - 1)).2.1
              ∧ c.output = (firstReply P Q s1 s2 i).2.1)
          ∧ ((secondReply P Q s1 s2 j).2.2 = some ErrProtocolFinished →
            ∃ c, r.calls[2 * i + 1]? = some c ∧ c.party = Party.second
              ∧ c.input = (firstReply P Q s1 s2 i).2.1
              ∧ c.output = (secondReply P Q s1 s2 i).2.1)) := by
  constructor
  · constructor
    · rintro ⟨fuel, r, h, ha, hb, hlen⟩
      obtain ⟨n, hprev, hf, hs, hcalls, _⟩ := RunProtocol_exit_inv P Q s1 s2 fuel r h ha hb
      have hn : n = k := by
        rw [hcalls, callsUpto_length] at hlen
        omega
      subst hn
      refine ⟨?_, ⟨hf, hs⟩, fun j hj => (hprev j hj).2.2⟩
      intro j hj
      by_cases hjn : j < n
      · exact ⟨(hprev j hjn).1, (hprev j hjn).2.1⟩
      · have e : j = n := by omega
        subst e
        exact ⟨Or.inr hf, Or.inr hs⟩
    · rintro ⟨hpass, ⟨hf, hs⟩, hfirst⟩
      have hprev : ∀ j, j < k → continues P Q s1 s2 j := fun j hj =>
        ⟨(hpass j (by omega)).1, (hpass j (by omega)).2, hfirst j hj⟩
      exact ⟨k + 2, _, RunProtocol_finish_at P Q s1 s2 k hprev hf hs 0, rfl, rfl,
        callsUpto_length P Q s1 s2 (k + 1)⟩
  · intro fuel r h ha hb hlen j i hji hik
    obtain ⟨n, hprev, hf, hs, hcalls, _⟩ := RunProtocol_exit_inv P Q s1 s2 fuel r h ha hb
    have hn : n = k := by
      rw [hcalls, callsUpto_length] at hlen
      omega
    subst hn
    obtain ⟨a, b⟩ := callsUpto_get P Q s1 s2 (n + 1) i (by omega)
    rw [hcalls]
    obtain ⟨m, rfl⟩ : ∃ m, i = m + 1 := ⟨i - 1, by omega⟩
    exact ⟨fun _ => ⟨_, a, rfl, rfl, rfl⟩, fun _ => ⟨_, b, rfl, rfl, rfl⟩⟩

theorem RunProtocol_normal_exit_witness :
    (∃ fuel r, RunProtocol fuel (counting 1 100) (counting 3 200) 0 0 = some r
        ∧ r.aErr = some ErrProtocolFinished ∧ r.bErr = some ErrProtocolFinished
        ∧ r.calls.length = 2 * (2 + 1))
    ∧ ((firstReply (counting 1 100) (counting 3 200) 0 0 0).2.2 = some ErrProtocolFinished
      ∧ ∃ c, (callsUpto (counting 1 100) (counting 3 200) 0 0 3)[2 * 2]? = some c
          ∧ c.party = Party.first ∧ c.input = some 600 ∧ c.output = some 700) := by
  have hrhs : (∀ j, j ≤ 2 →
        passes (firstReply (counting 1 100) (counting 3 200) 0 0 j).2.2
          ∧ passes (secondReply (counting 1 100) (counting 3 200) 0 0 j).2.2)
      ∧ ((firstReply (counting 1 100) (counting 3 200) 0 0 2).2.2 = some ErrProtocolFinished
        ∧ (secondReply (counting 1 100) (counting 3 200) 0 0 2).2.2 = some ErrProtocolFinished)
      ∧ ∀ j, j < 2 →
          ¬ ((firstReply (counting 1 100) (counting 3 200) 0 0 j).2.2 = some ErrProtocolFinished
            ∧ (secondReply (counting 1 100) (counting 3 200) 0 0 j).2.2
                = some ErrProtocolFinished) := by
    refine ⟨?_, ⟨rfl, rfl⟩, ?_⟩
    · intro j hj
      interval_cases j <;> decide
    · intro j hj
      interval_cases j <;> decide
  have hrun := ((RunProtocol_normal_exit (counting 1 100) (counting 3 200) 0 0 2).1).2 hrhs
  refine ⟨hrun, rfl, ?_⟩
  obtain ⟨fuel, r, h, ha, hb, hlen⟩ := hrun
  obtain ⟨c, hc, hp, hi, ho⟩ :=
    ((RunProtocol_normal_exit (counting 1 100) (counting 3 200) 0 0 2).2 fuel r h ha hb hlen
      0 2 (by decide) (by decide)).1 rfl
  exact ⟨_, rfl, rfl, rfl, rfl⟩

theorem GetRawPublicKey_equiv_witness :
    GetRawPublicKey sampleDkg "user:abc".toList = some (Except.ok [0, 3])
    ∧ Share.PublicKey sampleDkg "user:abc".toList = some (Except.ok [0, 3])
    ∧ GetRawPublicKey sampleDkg "admin:abc".toList = some (Except.error ErrInvalidKeyshareRole)
    ∧ Share.PublicKey sampleDkg "admin:abc".toList
        = some (Except.error ErrInvalidKeyshareRole)
    ∧ GetRawPublicKey sampleDkg "user:!".toList = some (Except.error (Error.other 1))
    ∧ Share.PublicKey sampleDkg "user:!".toList = some (Except.error (Error.other 1)) :=
  ⟨(((GetRawPublicKey_equiv sampleDkg "user:abc".toList).2.2.2 "abc".toList rfl).2.1 rfl).1,
   (((GetRawPublicKey_equiv sampleDkg "user:abc".toList).2.2.2 "abc".toList rfl).2.1 rfl).2,
   (((GetRawPublicKey_equiv sampleDkg "admin:abc".toList).2.2.2 "abc".toList rfl).2.2
      "admin".toList rfl (by decide) (by decide)).1,
   (((GetRawPublicKey_equiv sampleDkg "admin:abc".toList).2.2.2 "abc".toList rfl).2.2
      "admin".toList rfl (by decide) (by decide)).2,
   ((GetRawPublicKey_equiv sampleDkg "user:!".toList).2.2.1 (Error.other 1) rfl).1,
   ((GetRawPublicKey_equiv sampleDkg "user:!".toList).2.2.1 (Error.other 1) rfl).2⟩

end Mpc
